import Mathlib

/-!
Verification of the NEMO snapshot text parser and the multi-simulation
timeline synchronizer of `gc_stream_toolkit`.

The parser (`nemo_reader.py`) is embedded over `List Char` text: Python
strings become character lists, Python `float` values become `ℚ`, numpy
arrays become Lean lists, and fallible operations return `Except PErr`.
The synchronizer (`stream_animator.py`) is embedded with positions as
total functions `coord → timeIndex → particle → ℚ` and the NaN "no data"
sentinel as `Option.none` in the synced output.
-/

/-- Characters of a string literal, used to embed Python string constants. -/
def cs (s : String) : List Char := s.toList

/-- Python `str.strip()`: drop leading and trailing whitespace. -/
def pyStrip (l : List Char) : List Char :=
  ((l.dropWhile Char.isWhitespace).reverse.dropWhile Char.isWhitespace).reverse

/-- Auxiliary accumulator loop for `pyWords`. -/
def pyWordsAux : List Char → List Char → List (List Char)
  | [], acc => if acc.isEmpty then [] else [acc.reverse]
  | c :: rest, acc =>
    if c.isWhitespace then
      if acc.isEmpty then pyWordsAux rest []
      else acc.reverse :: pyWordsAux rest []
    else pyWordsAux rest (c :: acc)

/-- Python `str.split()` with no argument: split on whitespace runs,
dropping empty words. -/
def pyWords (l : List Char) : List (List Char) := pyWordsAux l []

/-- Python substring test `needle in hay`. -/
def containsSeq (needle : List Char) : List Char → Bool
  | [] => needle.isEmpty
  | c :: rest => ((c :: rest).take needle.length == needle) || containsSeq needle rest

/-- Python `str.startswith(p)`. -/
def startsWithSeq (p l : List Char) : Bool := l.take p.length == p

/-- The continuation-marker pattern removed by the parser (5 characters). -/
def dotsPat : List Char := cs ". . ."

/-- Loop of `removeDots`; the fuel only bounds the recursion (each step
consumes at least one character, so `l.length` fuel is always enough)
and keeps the definition structural. -/
def removeDotsGo : ℕ → List Char → List Char
  | _, [] => []
  | 0, l => l
  | fuel + 1, c :: rest =>
    if (c :: rest).take 5 == dotsPat then removeDotsGo fuel (rest.drop 4)
    else c :: removeDotsGo fuel rest

/-- Python `line.replace('. . .', '')`: remove every non-overlapping
occurrence of the 5-character pattern, scanning left to right. -/
def removeDots (l : List Char) : List Char := removeDotsGo l.length l

/-- Python `str.split(sep)` for a single-character separator, keeping
empty segments; used for splitting a snapshot into lines on a newline. -/
def splitOnChar (sepc : Char) : List Char → List (List Char)
  | [] => [[]]
  | x :: xs =>
    if x = sepc then [] :: splitOnChar sepc xs
    else
      match splitOnChar sepc xs with
      | [] => [[x]]
      | h :: t => (x :: h) :: t

/-- The literal delimiter that marks the start of each snapshot block
(12 characters). -/
def snapSep : List Char := cs "set SnapShot"

/-- Auxiliary loop of Python `tsf_output.split('set SnapShot')`: splits
on every non-overlapping occurrence of the 12-character delimiter. The
fuel only bounds the recursion (each step consumes at least one
character, so the initial `s.length` is always enough) and keeps the
definition structural. -/
def splitSnapGo : ℕ → List Char → List Char → List (List Char)
  | _, [], acc => [acc.reverse]
  | 0, _ :: _, acc => [acc.reverse]
  | fuel + 1, c :: rest, acc =>
    if (c :: rest).take 12 == snapSep then acc.reverse :: splitSnapGo fuel (rest.drop 11) []
    else splitSnapGo fuel rest (c :: acc)

/-- Digit-list value, assuming all characters are decimal digits. -/
def digitFold (l : List Char) : ℕ :=
  l.foldl (fun acc c => 10 * acc + (c.toNat - 48)) 0

/-- Nonempty all-digit character list parsed as a natural number. -/
def digitsVal? (l : List Char) : Option ℕ :=
  if l.isEmpty then none
  else if l.all Char.isDigit then some (digitFold l) else none

/-- Python `int(token)`: optional sign followed by at least one digit. -/
def pyInt? : List Char → Option ℤ
  | [] => none
  | c :: rest =>
    if c = '+' then (digitsVal? rest).map (fun n => (n : ℤ))
    else if c = '-' then (digitsVal? rest).map (fun n => -(n : ℤ))
    else (digitsVal? (c :: rest)).map (fun n => (n : ℤ))

/-- Unsigned decimal mantissa of a Python float literal: digits with at
most one dot and at least one digit overall. -/
def mantissa? (l : List Char) : Option ℚ :=
  let ip := l.takeWhile Char.isDigit
  match l.drop ip.length with
  | [] => if ip.isEmpty then none else some ((digitFold ip : ℕ) : ℚ)
  | c :: fp =>
    if c = '.' ∧ fp.all Char.isDigit ∧ (¬ ip.isEmpty ∨ ¬ fp.isEmpty) then
      some (((digitFold ip : ℕ) : ℚ) + ((digitFold fp : ℕ) : ℚ) / (10 : ℚ) ^ fp.length)
    else none

/-- Sign prefix of a float token, as a rational sign with the remaining
characters. -/
def signSplitQ : List Char → ℚ × List Char
  | [] => (1, [])
  | c :: r =>
    if c = '+' then (1, r)
    else if c = '-' then (-1, r)
    else (1, c :: r)

/-- Sign of an exponent part, as an integer with the remaining digits. -/
def signSplitZ : List Char → ℤ × List Char
  | [] => (1, [])
  | c :: r =>
    if c = '+' then (1, r)
    else if c = '-' then (-1, r)
    else (1, c :: r)

/-- Python `float(token)` on a whitespace-free token: optional sign,
decimal mantissa, optional integer exponent. Tokens that do not parse
yield `none` (Python raises `ValueError` there). -/
def pyFloat? (l : List Char) : Option ℚ :=
  let sb := signSplitQ l
  let mant := sb.2.takeWhile (fun c => !(c == 'e' || c == 'E'))
  match mantissa? mant with
  | none => none
  | some m =>
    match sb.2.drop mant.length with
    | [] => some (sb.1 * m)
    | _ :: etail =>
      let es := signSplitZ etail
      if ¬ es.2.isEmpty ∧ es.2.all Char.isDigit then
        some (sb.1 * m * (10 : ℚ) ^ (es.1 * (digitFold es.2 : ℤ)))
      else none

/-- Error kinds raised by the parser (Python raises `ValueError` or lets a
conversion/reshape exception propagate; the kinds are distinguished here
by their raise site). -/
inductive PErr where
  | noSnapshots
  | badTimestep
  | missingCount
  | badInt
  | badFloat
  | missingArray
  | stopIteration
  | reshapeErr
deriving DecidableEq, Repr

deriving instance DecidableEq for Except

/-- Range-kind errors: the two raised while selecting the snapshot index
(no blocks at all, or a resolved index outside the block list). -/
def PErr.isRange : PErr → Bool
  | .noSnapshots => true
  | .badTimestep => true
  | _ => false

/-- Result of `reshape_for_particles`: a flat vector (Mass) or a row-major
matrix (Position, Velocity). -/
inductive NumArr where
  | vec (l : List ℚ)
  | mat (rows : List (List ℚ))
deriving DecidableEq, Repr

/-- Leading dimension of a parsed array. -/
def leadingDim : NumArr → ℕ
  | .vec l => l.length
  | .mat rows => rows.length

/-- The parser's sole output entity. -/
structure ParsedParticleData where
  positions : NumArr
  velocities : NumArr
  masses : NumArr
  time : Option ℚ
  particle_count : ℤ
deriving DecidableEq, Repr

/-- Loop of `extract_simulation_info`: scan line by line, the last match
wins; a malformed count or time token aborts at once. -/
def simInfoGo : List (List Char) → Option ℤ → Option ℚ → Except PErr (ℤ × Option ℚ)
  | [], pc?, t? =>
    match pc? with
    | none => .error .missingCount
    | some pc => .ok (pc, t?)
  | line :: rest, pc?, t? =>
    if containsSeq (cs "int Nobj") line then
      match pyInt? ((pyWords line).getLastD []) with
      | none => .error .badInt
      | some n => simInfoGo rest (some n) t?
    else if containsSeq (cs "double Time") line then
      match pyFloat? ((pyWords line).getLastD []) with
      | none => .error .badFloat
      | some t => simInfoGo rest pc? (some t)
    else simInfoGo rest pc? t?

/-- Embeds `extract_simulation_info` (nemo_reader.py lines 209-223). -/
def extract_simulation_info (lines : List (List Char)) : Except PErr (ℤ × Option ℚ) :=
  simInfoGo lines none none

/-- Search pattern `f'{array_name}[{particle_count}]'`. -/
def arrayPattern (array_name : List Char) (particle_count : ℤ) : List Char :=
  array_name ++ [ '[' ] ++ cs (toString particle_count) ++ [ ']' ]

/-- Embeds `find_array_start_line` (nemo_reader.py lines 256-264). -/
def find_array_start_line (lines : List (List Char)) (array_name : List Char)
    (particle_count : ℤ) : Except PErr ℕ :=
  match lines.findIdx? (fun line => containsSeq (arrayPattern array_name particle_count) line) with
  | some i => .ok i
  | none => .error .missingArray

/-- Embeds `should_stop_parsing` (nemo_reader.py lines 299-305). -/
def should_stop_parsing (line array_name : List Char) : Bool :=
  (line == cs "tes") ||
    ((startsWithSeq (cs "float ") line || startsWithSeq (cs "double ") line) &&
      !(containsSeq array_name line))

/-- Embeds `is_header_line` (nemo_reader.py lines 308-310). -/
def is_header_line (line : List Char) : Bool :=
  startsWithSeq (cs "int ") line || startsWithSeq (cs "double ") line ||
    startsWithSeq (cs "float ") line || startsWithSeq (cs "char ") line ||
    startsWithSeq (cs "set ") line || startsWithSeq (cs "tes") line

/-- Python `[float(x) for x in tokens]`: every token must convert, and
the first failure aborts (an unhandled `ValueError` in the source). -/
def floatList? : List (List Char) → Option (List ℚ)
  | [] => some []
  | t :: rest =>
    match pyFloat? t with
    | none => none
    | some v =>
      match floatList? rest with
      | none => none
      | some vs => some (v :: vs)

/-- Loop of `extract_numbers_from_section`: walk the remaining lines,
stopping at the stop condition, re-reading declaration-style lines that
mention the array name, and harvesting numeric tokens from data lines. -/
def numbersGo (array_name : List Char) : List (List Char) → Except PErr (List ℚ)
  | [] => .ok []
  | raw :: rest =>
    let line := pyStrip raw
    if should_stop_parsing line array_name then .ok []
    else if containsSeq (array_name ++ [ '[' ]) line then
      let parts := pyWords line
      match parts.findIdx? (fun part => part.contains ']') with
      | none => .error .stopIteration
      | some idx =>
        match floatList? (parts.drop (idx + 1)) with
        | none => .error .badFloat
        | some vs =>
          match numbersGo array_name rest with
          | .error e => .error e
          | .ok tl => .ok (vs ++ tl)
    else if line ≠ [] ∧ is_header_line line = false then
      let vs := (pyWords (removeDots line)).filterMap pyFloat?
      match numbersGo array_name rest with
      | .error e => .error e
      | .ok tl => .ok (vs ++ tl)
    else numbersGo array_name rest

/-- Embeds `extract_numbers_from_section` (nemo_reader.py lines 267-296). -/
def extract_numbers_from_section (lines : List (List Char)) (start_line : ℕ)
    (array_name : List Char) : Except PErr (List ℚ) :=
  numbersGo array_name (lines.drop start_line)

/-- Python slice `l[:n]` (a negative bound counts from the end). -/
def pySliceTake (n : ℤ) (l : List α) : List α :=
  if 0 ≤ n then l.take n.toNat
  else l.take (l.length - min n.natAbs l.length)

/-- Row-major chunking of a flat list into rows of width `d`, modelling
`np.reshape(particle_count, dimensions)` on an exactly-sized input. -/
def chunkRows (d : ℕ) : List ℚ → List (List ℚ)
  | [] => []
  | x :: xs =>
    match d with
    | 0 => []
    | dd + 1 => (x :: xs.take dd) :: chunkRows (dd + 1) (xs.drop dd)
termination_by l => l.length
decreasing_by
  simp [List.length_drop]
  omega

/-- Embeds `reshape_for_particles` (nemo_reader.py lines 313-320): the
1-dimensional branch truncates silently; the matrix branch slices to
`particle_count * dimensions` entries (a negative bound slices from the
end, Python-style) and applies `np.reshape(particle_count, dimensions)`:
a non-negative count must fit exactly, while numpy treats any negative
count as the unknown dimension and infers the row count whenever the
sliced length is divisible by `dimensions`; remaining mismatches raise. -/
def reshape_for_particles (numbers : List ℚ) (particle_count : ℤ)
    (dimensions : ℕ) : Except PErr NumArr :=
  if dimensions = 1 then .ok (.vec (pySliceTake particle_count numbers))
  else
    let sliced := pySliceTake (particle_count * dimensions) numbers
    if 0 ≤ particle_count then
      if sliced.length = particle_count.toNat * dimensions then
        .ok (.mat (chunkRows dimensions sliced))
      else .error .reshapeErr
    else
      if dimensions ≠ 0 ∧ sliced.length % dimensions = 0 then
        .ok (.mat (chunkRows dimensions sliced))
      else .error .reshapeErr

/-- Embeds `extract_particle_array` (nemo_reader.py lines 226-253):
locate the declaration line, accumulate the section's numbers, reshape;
any failure propagates. -/
def extract_particle_array (lines : List (List Char)) (array_name : List Char)
    (particle_count : ℤ) (dimensions : ℕ) : Except PErr NumArr :=
  match find_array_start_line lines array_name particle_count with
  | .error e => .error e
  | .ok start =>
    match extract_numbers_from_section lines start array_name with
    | .error e => .error e
    | .ok numbers => reshape_for_particles numbers particle_count dimensions

/-- Embeds `split_into_snapshots` (nemo_reader.py lines 182-206): split on
the delimiter, discard the leading header segment, and put the delimiter
back in front of every block. -/
def split_into_snapshots (s : List Char) : List (List Char) :=
  match splitSnapGo s.length s [] with
  | [] => []
  | _ :: parts => parts.map (fun p => snapSep ++ p)

/-- Body of `parse_converted_falcon_output` once a snapshot is selected
(nemo_reader.py lines 163-179): split into lines, read the count and
time, then extract the three arrays; any failure propagates. -/
def parse_block (selected : List Char) : Except PErr ParsedParticleData :=
  let lines := splitOnChar '\n' selected
  match extract_simulation_info lines with
  | .error e => .error e
  | .ok info =>
    match extract_particle_array lines (cs "Position") info.1 3 with
    | .error e => .error e
    | .ok positions =>
      match extract_particle_array lines (cs "Velocity") info.1 3 with
      | .error e => .error e
      | .ok velocities =>
        match extract_particle_array lines (cs "Mass") info.1 1 with
        | .error e => .error e
        | .ok masses => .ok ⟨positions, velocities, masses, info.2, info.1⟩

/-- Embeds `parse_converted_falcon_output` (nemo_reader.py lines 133-179):
split into snapshots, resolve the (possibly negative) timestep index,
then parse the selected block. -/
def parse_converted_falcon_output (tsf_output : List Char) (timestep : ℤ) :
    Except PErr ParsedParticleData :=
  let snapshots := split_into_snapshots tsf_output
  if snapshots.isEmpty then .error .noSnapshots
  else
    let resolved := if timestep < 0 then (snapshots.length : ℤ) + timestep else timestep
    if (snapshots.length : ℤ) ≤ resolved ∨ resolved < 0 then .error .badTimestep
    else parse_block (snapshots.getD resolved.toNat [])

/-- Minimum of a numpy array (`times.min()`); the empty case is
unreachable on the inputs the code accepts. -/
def listMin : List ℚ → ℚ
  | [] => 0
  | x :: xs => xs.foldl min x

/-- Maximum of a numpy array (`times.max()`). -/
def listMax : List ℚ → ℚ
  | [] => 0
  | x :: xs => xs.foldl max x

/-- Embeds `np.linspace(a, b, n)`: `n` evenly spaced samples including
both endpoints; a single sample is the start point. -/
def linspace (a b : ℚ) (n : ℕ) : List ℚ :=
  if n = 0 then []
  else if n = 1 then [a]
  else (List.range n).map (fun (i : ℕ) => a + (b - a) * (i : ℚ) / ((n : ℚ) - 1))

/-- Local `earliest_time` of `_create_master_timeline`
(stream_animator.py line 103). -/
def earliest_time (all_times : List (List ℚ)) : ℚ :=
  listMin (all_times.map listMin)

/-- Local `latest_time` of `_create_master_timeline`
(stream_animator.py line 104). -/
def latest_time (all_times : List (List ℚ)) : ℚ :=
  listMax (all_times.map listMax)

/-- Local `timesteps` of `_create_master_timeline`: the first-step size
`abs(times[1] - times[0])` of every series with more than one sample
(stream_animator.py lines 107-111). -/
def series_timesteps (all_times : List (List ℚ)) : List ℚ :=
  all_times.filterMap (fun times =>
    if 1 < times.length then some |times.getD 1 0 - times.getD 0 0| else none)

/-- Local `finest_dt`: `min(timesteps) if timesteps else 0.5`
(stream_animator.py line 113). -/
def finest_dt (all_times : List (List ℚ)) : ℚ :=
  if (series_timesteps all_times).isEmpty then (1 : ℚ) / 2
  else listMin (series_timesteps all_times)

/-- Local `n_steps`: `int((latest_time - earliest_time) / finest_dt) + 1`
(stream_animator.py line 116; the quotient is nonnegative on the inputs
the code accepts, so Python truncation is floor). -/
def n_steps (all_times : List (List ℚ)) : ℕ :=
  (Int.floor ((latest_time all_times - earliest_time all_times) / finest_dt all_times)).toNat + 1

/-- Embeds `StreamAnimator._create_master_timeline` (stream_animator.py
lines 100-118): overall bounds, finest first-step, grid size, then
`np.linspace`. -/
def create_master_timeline (all_times : List (List ℚ)) : List ℚ :=
  linspace (earliest_time all_times) (latest_time all_times) (n_steps all_times)

/-- Embeds `np.searchsorted(a, v)` (left side) on a sorted grid: the
number of grid entries strictly below `v`. -/
def searchsorted_left (a : List ℚ) (v : ℚ) : ℕ :=
  a.countP (fun x => decide (x < v))

/-- Start of the overlap slice (stream_animator.py line 147). -/
def overlapStart (master_time original_times : List ℚ) : ℕ :=
  searchsorted_left master_time (listMin original_times)

/-- End of the overlap slice, clamped to the grid length
(stream_animator.py lines 148-149). -/
def overlapEnd (master_time original_times : List ℚ) : ℕ :=
  min (searchsorted_left master_time (listMax original_times) + 1) master_time.length

/-- Core of `np.interp` over a list of `(sample time, sample value)`
pairs with increasing times: clamp below the first and above the last
sample, linear interpolation in between. -/
def interpPairs (x : ℚ) : List (ℚ × ℚ) → ℚ
  | [] => 0
  | [(_, f0)] => f0
  | (t0, f0) :: (t1, f1) :: rest =>
    if x ≤ t0 then f0
    else if x ≤ t1 then f0 + (f1 - f0) * (x - t0) / (t1 - t0)
    else interpPairs x ((t1, f1) :: rest)

/-- Embeds `np.interp(x, xp, fp)` for increasing `xp`. -/
def np_interp (x : ℚ) (xp fp : List ℚ) : ℚ :=
  interpPairs x (xp.zip fp)

/-- Embeds `StreamAnimator._interpolate_to_master` (stream_animator.py
lines 141-161): a `(3, n_timesteps, particles)` array initialised to the
NaN sentinel (modelled as `none`), with the overlap slice
`[start_idx, end_idx)` filled per coordinate and particle by `np.interp`
of that particle's native samples. -/
def interpolate_to_master (master_time original_times : List ℚ)
    (positions : ℕ → ℕ → ℕ → ℚ) (coord i particle : ℕ) : Option ℚ :=
  if coord < 3 ∧ overlapStart master_time original_times ≤ i ∧
      i < overlapEnd master_time original_times then
    some (np_interp (master_time.getD i 0) original_times
      ((List.range original_times.length).map (fun k => positions coord k particle)))
  else none

/-- Spec-side stop condition for an array section, following §4.1 step 5
of the specification: the literal end-of-block marker, or a
type-declaration line not belonging to the current array. -/
def specStopLine (line array_name : List Char) : Bool :=
  (line == cs "tes") ||
    ((startsWithSeq (cs "float ") line || startsWithSeq (cs "double ") line) &&
      !(containsSeq array_name line))

/-- Modelled from the spec (§4.1 step 5), for comparison with
`extract_numbers_from_section`: the numeric tokens of a section are the
declaration-line tokens after the closing bracket, then every numeric
token of the following lines up to (not including) the first stop line,
with continuation markers stripped before tokenization and non-numeric
tokens skipped. -/
def section_numbers_spec (lines : List (List Char)) (start_line : ℕ)
    (array_name : List Char) : List ℚ :=
  match lines.drop start_line with
  | [] => []
  | decl :: rest =>
    let parts := pyWords (pyStrip decl)
    let idx := (parts.findIdx? (fun part => part.contains ']')).getD parts.length
    let declVals := (parts.drop (idx + 1)).filterMap pyFloat?
    let body := (rest.map pyStrip).takeWhile (fun l => !(specStopLine l array_name))
    declVals ++ body.foldr (fun l acc => (pyWords (removeDots l)).filterMap pyFloat? ++ acc) []

theorem foldl_min_le_init (l : List ℚ) (a : ℚ) : l.foldl min a ≤ a := by
  induction l generalizing a with
  | nil => simp
  | cons x xs ih => exact le_trans (ih (min a x)) (min_le_left a x)

theorem foldl_min_le_mem (l : List ℚ) (a x : ℚ) (hx : x ∈ l) : l.foldl min a ≤ x := by
  induction l generalizing a with
  | nil => cases hx
  | cons y ys ih =>
    rcases List.mem_cons.mp hx with rfl | hmem
    · exact le_trans (foldl_min_le_init ys (min a x)) (min_le_right a x)
    · exact ih (min a y) hmem

theorem foldl_min_cases (l : List ℚ) (a : ℚ) : l.foldl min a = a ∨ l.foldl min a ∈ l := by
  induction l generalizing a with
  | nil => left; rfl
  | cons x xs ih =>
    rcases ih (min a x) with h | h
    · rcases le_total a x with hax | hxa
      · left; simp only [List.foldl_cons, h]; exact min_eq_left hax
      · right; simp only [List.foldl_cons, h]
        exact List.mem_cons.mpr (Or.inl (min_eq_right hxa))
    · right; exact List.mem_cons_of_mem x h

theorem init_le_foldl_max (l : List ℚ) (a : ℚ) : a ≤ l.foldl max a := by
  induction l generalizing a with
  | nil => simp
  | cons x xs ih => exact le_trans (le_max_left a x) (ih (max a x))

theorem mem_le_foldl_max (l : List ℚ) (a x : ℚ) (hx : x ∈ l) : x ≤ l.foldl max a := by
  induction l generalizing a with
  | nil => cases hx
  | cons y ys ih =>
    rcases List.mem_cons.mp hx with rfl | hmem
    · exact le_trans (le_max_right a x) (init_le_foldl_max ys (max a x))
    · exact ih (max a y) hmem

theorem foldl_max_cases (l : List ℚ) (a : ℚ) : l.foldl max a = a ∨ l.foldl max a ∈ l := by
  induction l generalizing a with
  | nil => left; rfl
  | cons x xs ih =>
    rcases ih (max a x) with h | h
    · rcases le_total a x with hax | hxa
      · right; simp only [List.foldl_cons, h]
        exact List.mem_cons.mpr (Or.inl (max_eq_right hax))
      · left; simp only [List.foldl_cons, h]; exact max_eq_left hxa
    · right; exact List.mem_cons_of_mem x h

theorem listMin_le_mem (l : List ℚ) (x : ℚ) (hx : x ∈ l) : listMin l ≤ x := by
  cases l with
  | nil => cases hx
  | cons y ys =>
    rcases List.mem_cons.mp hx with rfl | hmem
    · exact foldl_min_le_init ys x
    · exact foldl_min_le_mem ys y x hmem

theorem mem_le_listMax (l : List ℚ) (x : ℚ) (hx : x ∈ l) : x ≤ listMax l := by
  cases l with
  | nil => cases hx
  | cons y ys =>
    rcases List.mem_cons.mp hx with rfl | hmem
    · exact init_le_foldl_max ys x
    · exact mem_le_foldl_max ys y x hmem

theorem listMin_mem (l : List ℚ) (hl : l ≠ []) : listMin l ∈ l := by
  cases l with
  | nil => exact absurd rfl hl
  | cons y ys =>
    rcases foldl_min_cases ys y with h | h
    · exact List.mem_cons.mpr (Or.inl h)
    · exact List.mem_cons_of_mem y h

theorem listMax_mem (l : List ℚ) (hl : l ≠ []) : listMax l ∈ l := by
  cases l with
  | nil => exact absurd rfl hl
  | cons y ys =>
    rcases foldl_max_cases ys y with h | h
    · exact List.mem_cons.mpr (Or.inl h)
    · exact List.mem_cons_of_mem y h

theorem listMin_le_listMax (l : List ℚ) (hl : l ≠ []) : listMin l ≤ listMax l :=
  le_trans (listMin_le_mem l (listMax l) (listMax_mem l hl)) (le_refl _)

theorem countP_gt_of_sorted (l : List ℚ) (v : ℚ) (hl : List.Sorted (· ≤ ·) l)
    (i : ℕ) (hi : i < l.length) (hv : l[i] < v) :
    i < l.countP (fun x => decide (x < v)) := by
  induction l generalizing i with
  | nil => cases hi
  | cons x xs ih =>
    have hx := (List.sorted_cons.mp hl).1
    have hxs := (List.sorted_cons.mp hl).2
    cases i with
    | zero =>
      have : x < v := by simpa using hv
      simp [List.countP_cons, this]
    | succ j =>
      have hj : j < xs.length := by simpa using hi
      have hjv : xs[j] < v := by simpa using hv
      have hxv : x < v := lt_of_le_of_lt (hx _ (List.getElem_mem hj)) hjv
      have hcount := ih hxs j hj hjv
      have hb : (decide (x < v)) = true := decide_eq_true hxv
      simp [List.countP_cons, hb]
      omega

theorem countP_le_of_sorted (l : List ℚ) (v : ℚ) (hl : List.Sorted (· ≤ ·) l)
    (i : ℕ) (hi : i < l.length) (hv : v < l[i]) :
    l.countP (fun x => decide (x < v)) ≤ i := by
  induction l generalizing i with
  | nil => cases hi
  | cons x xs ih =>
    have hx := (List.sorted_cons.mp hl).1
    have hxs := (List.sorted_cons.mp hl).2
    cases i with
    | zero =>
      have hxv : v < x := by simpa using hv
      have hall : ∀ y ∈ x :: xs, ¬ y < v := by
        intro y hy
        rcases List.mem_cons.mp hy with rfl | hmem
        · exact not_lt.mpr hxv.le
        · exact not_lt.mpr (le_trans hxv.le (hx _ hmem))
      have : (x :: xs).countP (fun x => decide (x < v)) = 0 :=
        List.countP_eq_zero.mpr (by simpa using hall)
      omega
    | succ j =>
      have hj : j < xs.length := by simpa using hi
      have hjv : v < xs[j] := by simpa using hv
      have hcount := ih hxs j hj hjv
      rcases Bool.eq_false_or_eq_true (decide (x < v)) with hb | hb <;>
        simp [List.countP_cons, hb] <;> omega

theorem countP_lt_listMin (l : List ℚ) :
    l.countP (fun x => decide (x < listMin l)) = 0 := by
  apply List.countP_eq_zero.mpr
  intro x hx
  simpa using not_lt.mpr (listMin_le_mem l x hx)

theorem listMax_cons_cons (x y : ℚ) (rest : List ℚ) (hxy : x ≤ y) :
    listMax (x :: y :: rest) = listMax (y :: rest) := by
  simp [listMax, max_eq_right hxy]

theorem countP_lt_listMax_strict (l : List ℚ) (hl : List.Sorted (· < ·) l) (hne : l ≠ []) :
    l.countP (fun x => decide (x < listMax l)) = l.length - 1 := by
  induction l with
  | nil => exact absurd rfl hne
  | cons x xs ih =>
    cases xs with
    | nil => simp [listMax, List.countP_cons]
    | cons y rest =>
      have hx := (List.sorted_cons.mp hl).1
      have hxs := (List.sorted_cons.mp hl).2
      have hxy : x < y := hx y (List.mem_cons_self y rest)
      have hmax : listMax (x :: y :: rest) = listMax (y :: rest) :=
        listMax_cons_cons x y rest hxy.le
      have hxlt : x < listMax (x :: y :: rest) := by
        rw [hmax]
        exact lt_of_lt_of_le hxy (mem_le_listMax (y :: rest) y (List.mem_cons_self y rest))
      have htail := ih hxs (by simp)
      have hb : (decide (x < listMax (x :: y :: rest))) = true := decide_eq_true hxlt
      rw [List.countP_cons]
      simp only [List.length_cons] at htail ⊢
      rw [hmax] at hb ⊢
      simp [hb]
      omega

theorem convex_between (f0 f1 r : ℚ) (h0 : 0 ≤ r) (h1 : r ≤ 1) :
    min f0 f1 ≤ f0 + (f1 - f0) * r ∧ f0 + (f1 - f0) * r ≤ max f0 f1 := by
  rcases le_total f0 f1 with h | h
  · rw [min_eq_left h, max_eq_right h]
    constructor <;> nlinarith
  · rw [min_eq_right h, max_eq_left h]
    constructor <;> nlinarith

theorem interpPairs_bounds (x : ℚ) (pairs : List (ℚ × ℚ))
    (hs : List.Sorted (· < ·) (pairs.map Prod.fst)) (hne : pairs ≠ []) :
    listMin (pairs.map Prod.snd) ≤ interpPairs x pairs ∧
      interpPairs x pairs ≤ listMax (pairs.map Prod.snd) := by
  induction pairs with
  | nil => exact absurd rfl hne
  | cons p0 rest ih =>
    cases rest with
    | nil =>
      obtain ⟨t0, f0⟩ := p0
      constructor <;> simp [interpPairs, listMin, listMax]
    | cons p1 rest2 =>
      obtain ⟨t0, f0⟩ := p0
      obtain ⟨t1, f1⟩ := p1
      have hs1 := (List.sorted_cons.mp hs).1
      have hs2 := (List.sorted_cons.mp hs).2
      have ht01 : t0 < t1 := hs1 t1 (by simp)
      have hf0mem : f0 ∈ ((t0, f0) :: (t1, f1) :: rest2).map Prod.snd := by simp
      have hf1mem : f1 ∈ ((t0, f0) :: (t1, f1) :: rest2).map Prod.snd := by simp
      by_cases hx0 : x ≤ t0
      · constructor <;> simp only [interpPairs, if_pos hx0]
        · exact listMin_le_mem _ f0 hf0mem
        · exact mem_le_listMax _ f0 hf0mem
      · by_cases hx1 : x ≤ t1
        · have hd : (0 : ℚ) < t1 - t0 := by linarith
          have hr0 : 0 ≤ (x - t0) / (t1 - t0) :=
            div_nonneg (by linarith [not_le.mp hx0]) hd.le
          have hr1 : (x - t0) / (t1 - t0) ≤ 1 :=
            (div_le_one hd).mpr (by linarith)
          have hcv := convex_between f0 f1 ((x - t0) / (t1 - t0)) hr0 hr1
          have hval : interpPairs x ((t0, f0) :: (t1, f1) :: rest2) =
              f0 + (f1 - f0) * ((x - t0) / (t1 - t0)) := by
            simp only [interpPairs, if_neg hx0, if_pos hx1]
            ring
          rw [hval]
          constructor
          · exact le_trans (le_min (listMin_le_mem _ f0 hf0mem)
              (listMin_le_mem _ f1 hf1mem)) hcv.1
          · refine le_trans hcv.2 ?_
            exact max_le (mem_le_listMax _ f0 hf0mem) (mem_le_listMax _ f1 hf1mem)
        · have hval : interpPairs x ((t0, f0) :: (t1, f1) :: rest2) =
              interpPairs x ((t1, f1) :: rest2) := by
            simp only [interpPairs, if_neg hx0, if_neg hx1]
          rw [hval]
          have hrec := ih hs2 (by simp)
          constructor
          · refine le_trans ?_ hrec.1
            have : listMin (((t0, f0) :: (t1, f1) :: rest2).map Prod.snd) ≤
                listMin (((t1, f1) :: rest2).map Prod.snd) := by
              have hmem := listMin_mem (((t1, f1) :: rest2).map Prod.snd) (by simp)
              exact listMin_le_mem _ _ (by simpa using Or.inr (by simpa using hmem))
            exact this
          · refine le_trans hrec.2 ?_
            have hmem := listMax_mem (((t1, f1) :: rest2).map Prod.snd) (by simp)
            exact mem_le_listMax _ _ (by simpa using Or.inr (by simpa using hmem))

theorem interpPairs_at_node : ∀ (pairs : List (ℚ × ℚ)),
    List.Sorted (· < ·) (pairs.map Prod.fst) →
    ∀ k, (hk : k < pairs.length) →
    interpPairs ((pairs[k]).1) pairs = (pairs[k]).2 := by
  intro pairs
  induction pairs with
  | nil => intro _ k hk; cases hk
  | cons p0 rest ih =>
    intro hs k hk
    obtain ⟨t0, f0⟩ := p0
    have hs' : List.Sorted (· < ·) (t0 :: rest.map Prod.fst) := by simpa using hs
    have hs1 := (List.sorted_cons.mp hs').1
    have hs2 : List.Sorted (· < ·) (rest.map Prod.fst) := (List.sorted_cons.mp hs').2
    cases k with
    | zero =>
      cases rest with
      | nil => simp [interpPairs]
      | cons p1 rest2 =>
        obtain ⟨t1, f1⟩ := p1
        simp [interpPairs]
    | succ j =>
      cases rest with
      | nil => simp at hk
      | cons p1 rest2 =>
        obtain ⟨t1, f1⟩ := p1
        have hj : j < ((t1, f1) :: rest2).length := by simpa using hk
        have hxmem : ((((t1, f1) :: rest2)[j]).1) ∈ ((t1, f1) :: rest2).map Prod.fst :=
          List.mem_map_of_mem _ (List.getElem_mem hj)
        have ht0x : t0 < (((t1, f1) :: rest2)[j]).1 := hs1 _ hxmem
        have hgoal : (((t0, f0) :: (t1, f1) :: rest2)[j + 1]) = (((t1, f1) :: rest2)[j]) := by
          simp
        cases j with
        | zero =>
          have ht01 : t0 < t1 := by simpa using ht0x
          have hne : t1 - t0 ≠ 0 := sub_ne_zero.mpr (ne_of_gt ht01)
          have : interpPairs t1 ((t0, f0) :: (t1, f1) :: rest2) = f1 := by
            simp only [interpPairs, if_neg (not_le.mpr ht01), if_pos (le_refl t1)]
            field_simp
          simpa using this
        | succ i =>
          have hi : i < rest2.length := by simpa using hj
          have hx1 : t1 < ((rest2[i]).1) := by
            have hs2' : List.Sorted (· < ·) (t1 :: rest2.map Prod.fst) := by simpa using hs2
            exact (List.sorted_cons.mp hs2').1 _ (List.mem_map_of_mem _ (List.getElem_mem hi))
          have hx0 : t0 < ((rest2[i]).1) := by simpa using ht0x
          have hrec := ih hs2 (i + 1) hj
          have hred : ((((t1, f1) :: rest2)[i + 1]).1) = ((rest2[i]).1) := by simp
          calc interpPairs ((((t0, f0) :: (t1, f1) :: rest2)[i + 1 + 1]).1)
                ((t0, f0) :: (t1, f1) :: rest2)
              = interpPairs ((rest2[i]).1) ((t0, f0) :: (t1, f1) :: rest2) := by simp
            _ = interpPairs ((rest2[i]).1) ((t1, f1) :: rest2) := by
                simp only [interpPairs, if_neg (not_le.mpr hx0), if_neg (not_le.mpr hx1)]
            _ = ((((t1, f1) :: rest2)[i + 1]).2) := by rw [← hred]; exact (by simpa using hrec)
            _ = ((((t0, f0) :: (t1, f1) :: rest2)[i + 1 + 1]).2) := by simp

theorem interpPairs_clamp_right : ∀ (pairs : List (ℚ × ℚ)) (x : ℚ), pairs ≠ [] →
    (∀ t ∈ pairs.map Prod.fst, t < x) →
    interpPairs x pairs = (pairs.getLastD (0, 0)).2 := by
  intro pairs
  induction pairs with
  | nil => intro x h; exact absurd rfl h
  | cons p0 rest ih =>
    intro x _ hall
    obtain ⟨t0, f0⟩ := p0
    cases rest with
    | nil => simp [interpPairs]
    | cons p1 rest2 =>
      obtain ⟨t1, f1⟩ := p1
      have ht0 : t0 < x := hall t0 (by simp)
      have ht1 : t1 < x := hall t1 (by simp)
      have hrec := ih x (by simp) (fun t ht => hall t (by simpa using Or.inr ht))
      calc interpPairs x ((t0, f0) :: (t1, f1) :: rest2)
          = interpPairs x ((t1, f1) :: rest2) := by
            simp only [interpPairs, if_neg (not_le.mpr ht0), if_neg (not_le.mpr ht1)]
        _ = (((t1, f1) :: rest2).getLastD (0, 0)).2 := hrec
        _ = (((t0, f0) :: (t1, f1) :: rest2).getLastD (0, 0)).2 := by simp

theorem getLastD_eq_getElem {α : Type} (l : List α) (d : α) (h : l ≠ []) :
    l.getLastD d = l.get ⟨l.length - 1, by
      cases l with
      | nil => exact absurd rfl h
      | cons x xs => simp⟩ := by
  induction l with
  | nil => exact absurd rfl h
  | cons x xs ih =>
    cases xs with
    | nil => simp
    | cons y rest =>
      have := ih (by simp)
      simpa using this


theorem linspace_length (a b : ℚ) (n : ℕ) : (linspace a b n).length = n := by
  unfold linspace
  split_ifs with h1 h2
  · simp [h1]
  · simp [h2]
  · rw [List.length_map, List.length_range]

theorem linspace_getD (a b : ℚ) (n i : ℕ) (h2 : 2 ≤ n) (hi : i < n) :
    (linspace a b n).getD i 0 = a + (b - a) * i / ((n : ℚ) - 1) := by
  unfold linspace
  rw [if_neg (by omega), if_neg (by omega)]
  rw [List.getD_eq_getElem _ _ (by simpa using hi)]
  rw [List.getElem_map]
  rw [List.getElem_range]

theorem linspace_head (a b : ℚ) (n : ℕ) (h1 : 1 ≤ n) : (linspace a b n).getD 0 0 = a := by
  rcases Nat.lt_or_ge n 2 with h | h
  · have : n = 1 := by omega
    subst this
    simp [linspace]
  · rw [linspace_getD a b n 0 h (by omega)]
    simp

theorem linspace_last (a b : ℚ) (n : ℕ) (h2 : 2 ≤ n) :
    (linspace a b n).getD (n - 1) 0 = b := by
  rw [linspace_getD a b n (n - 1) h2 (by omega)]
  have hne : ((n : ℚ) - 1) ≠ 0 := by
    have : (2 : ℚ) ≤ (n : ℚ) := by exact_mod_cast h2
    intro hcon
    nlinarith
  have hcast : (((n - 1 : ℕ)) : ℚ) = (n : ℚ) - 1 := by
    push_cast [Nat.cast_sub (by omega : 1 ≤ n)]
    ring
  rw [hcast]
  field_simp

theorem earliest_le_latest (all_times : List (List ℚ)) (hne : all_times ≠ [])
    (hall : ∀ t ∈ all_times, t ≠ []) :
    earliest_time all_times ≤ latest_time all_times := by
  obtain ⟨t0, rest, rfl⟩ : ∃ t0 rest, all_times = t0 :: rest := by
    cases all_times with
    | nil => exact absurd rfl hne
    | cons t0 rest => exact ⟨t0, rest, rfl⟩
  have h1 : earliest_time (t0 :: rest) ≤ listMin t0 :=
    listMin_le_mem _ _ (by simp [earliest_time])
  have h2 : listMin t0 ≤ listMax t0 := listMin_le_listMax t0 (hall t0 (by simp))
  have h3 : listMax t0 ≤ latest_time (t0 :: rest) :=
    mem_le_listMax _ _ (by simp [latest_time])
  exact le_trans h1 (le_trans h2 h3)

/-- C3 (amended): with at least one nonempty series and a positive finest
step, the master timeline has `floor((latest - earliest)/finest_step) + 1`
evenly spaced points whose first point is `earliest`; its last point is
`latest` whenever the grid has at least two points, but a one-point grid
(reachable only through the 0.5 default step, with all series singletons
and the time range shorter than that step) consists of `earliest` alone
even when `latest > earliest`, so the claim's "last point is latest"
fails there. -/
theorem c3_master_timeline_amended (all_times : List (List ℚ))
    (hne : all_times ≠ []) (hall : ∀ t ∈ all_times, t ≠ [])
    (hfin : 0 < finest_dt all_times) :
    ((create_master_timeline all_times).length : ℤ) =
      Int.floor ((latest_time all_times - earliest_time all_times) / finest_dt all_times) + 1 ∧
    (create_master_timeline all_times).getD 0 0 = earliest_time all_times ∧
    (2 ≤ (create_master_timeline all_times).length →
      (create_master_timeline all_times).getD ((create_master_timeline all_times).length - 1) 0 =
        latest_time all_times) ∧
    (∀ i, i + 1 < (create_master_timeline all_times).length →
      (create_master_timeline all_times).getD (i + 1) 0 -
          (create_master_timeline all_times).getD i 0 =
        (latest_time all_times - earliest_time all_times) /
          (((create_master_timeline all_times).length : ℚ) - 1)) := by
  have hq : 0 ≤ (latest_time all_times - earliest_time all_times) / finest_dt all_times :=
    div_nonneg (by linarith [earliest_le_latest all_times hne hall]) hfin.le
  have hfl : (0 : ℤ) ≤ Int.floor ((latest_time all_times - earliest_time all_times) /
      finest_dt all_times) := Int.floor_nonneg.mpr hq
  have hlen : (create_master_timeline all_times).length = n_steps all_times := by
    unfold create_master_timeline
    exact linspace_length _ _ _
  refine ⟨?_, ?_, ?_, ?_⟩
  · rw [hlen]
    unfold n_steps
    push_cast [Int.toNat_of_nonneg hfl]
    ring
  · unfold create_master_timeline
    exact linspace_head _ _ _ (by unfold n_steps; omega)
  · intro h2
    rw [hlen] at h2 ⊢
    unfold create_master_timeline
    exact linspace_last _ _ _ h2
  · intro i hi
    rw [hlen] at hi ⊢
    have h2 : 2 ≤ n_steps all_times := by omega
    unfold create_master_timeline
    rw [linspace_getD _ _ _ (i + 1) h2 (by omega), linspace_getD _ _ _ i h2 (by omega)]
    have hnz : ((n_steps all_times : ℚ) - 1) ≠ 0 := by
      have : (2 : ℚ) ≤ (n_steps all_times : ℚ) := by exact_mod_cast h2
      intro hcon
      nlinarith
    push_cast
    field_simp
    ring

/-- C3 counterexample: for the two singleton series with times `{0}` and
`{3/10}` the grid-size formula gives one point and the generated grid is
`[0]`, whose last point is `0`, not the latest time `3/10`: the claim's
"last point is latest" is false on this input. -/
theorem c3_counterexample :
    create_master_timeline [[0], [(3 : ℚ)/10]] = [0] ∧
    latest_time [[0], [(3 : ℚ)/10]] = 3/10 ∧
    ((0 : ℚ) ≠ 3/10) := by
  have h1 : earliest_time [[0], [(3 : ℚ)/10]] = 0 := by
    norm_num [earliest_time, listMin, min_def]
  have h2 : latest_time [[0], [(3 : ℚ)/10]] = 3/10 := by
    norm_num [latest_time, listMax, max_def]
  have h3 : series_timesteps [[0], [(3 : ℚ)/10]] = [] := by norm_num [series_timesteps]
  have h4 : finest_dt [[0], [(3 : ℚ)/10]] = 1/2 := by
    unfold finest_dt
    rw [h3]
    norm_num
  have h5 : n_steps [[0], [(3 : ℚ)/10]] = 1 := by
    unfold n_steps
    rw [h1, h2, h4]
    norm_num
  refine ⟨?_, h2, by norm_num⟩
  unfold create_master_timeline
  rw [h1, h2, h5]
  norm_num [linspace]

/-- C3 witness: the amended theorem applied to the single series
`[0, 1, 2]` (three grid points, first point 0). -/
theorem c3_witness :
    ((create_master_timeline [[0, 1, 2]]).length : ℤ) =
      Int.floor ((latest_time [[(0 : ℚ), 1, 2]] - earliest_time [[(0 : ℚ), 1, 2]]) /
        finest_dt [[(0 : ℚ), 1, 2]]) + 1 ∧
    (create_master_timeline [[0, 1, 2]]).getD 0 0 = earliest_time [[(0 : ℚ), 1, 2]] := by
  have hfin : 0 < finest_dt [[(0 : ℚ), 1, 2]] := by
    have h3 : series_timesteps [[(0 : ℚ), 1, 2]] = [1] := by
      norm_num [series_timesteps, List.filterMap_cons, List.getD, abs_of_nonneg]
    unfold finest_dt
    rw [h3]
    norm_num [listMin]
  exact ⟨(c3_master_timeline_amended [[0, 1, 2]] (by simp) (by simp) hfin).1,
    (c3_master_timeline_amended [[0, 1, 2]] (by simp) (by simp) hfin).2.1⟩

/-- C4: in the concrete two-series scenario (series A with times
`[0, 1, 2]` and constant cluster position `(0,0,0)`, series B with times
`[0, 2, 4]` and constant cluster position `(1,1,1)`) the master grid is
`[0, 1, 2, 3, 4]` (step 1, five points), synced series A holds the
"no data" sentinel at master times 3 and 4, and synced series B holds a
valid (non-sentinel) value at all five master points. -/
theorem c4_example_scenario :
    create_master_timeline [[0, 1, 2], [0, 2, 4]] = [0, 1, 2, 3, 4] ∧
    (∀ c < 3, interpolate_to_master (create_master_timeline [[0, 1, 2], [0, 2, 4]])
        [0, 1, 2] (fun _ _ _ => 0) c 3 0 = none ∧
      interpolate_to_master (create_master_timeline [[0, 1, 2], [0, 2, 4]])
        [0, 1, 2] (fun _ _ _ => 0) c 4 0 = none) ∧
    (∀ c < 3, ∀ i < 5, interpolate_to_master (create_master_timeline [[0, 1, 2], [0, 2, 4]])
        [0, 2, 4] (fun _ _ _ => 1) c i 0 ≠ none) := by
  have hm : create_master_timeline [[0, 1, 2], [(0 : ℚ), 2, 4]] = [0, 1, 2, 3, 4] := by
    have h1 : earliest_time [[0, 1, 2], [(0 : ℚ), 2, 4]] = 0 := by
      norm_num [earliest_time, listMin, min_def]
    have h2 : latest_time [[0, 1, 2], [(0 : ℚ), 2, 4]] = 4 := by
      norm_num [latest_time, listMax, max_def]
    have h3 : series_timesteps [[0, 1, 2], [(0 : ℚ), 2, 4]] = [1, 2] := by
      norm_num [series_timesteps, List.filterMap_cons, List.getD, abs_of_nonneg]
    have h4 : finest_dt [[0, 1, 2], [(0 : ℚ), 2, 4]] = 1 := by
      unfold finest_dt
      rw [h3]
      norm_num [listMin, min_def]
    have h5 : n_steps [[0, 1, 2], [(0 : ℚ), 2, 4]] = 5 := by
      unfold n_steps
      rw [h1, h2, h4]
      norm_num
      decide
    unfold create_master_timeline
    rw [h1, h2, h5]
    norm_num [linspace, List.range_succ]
  have hsA : overlapStart [0, 1, 2, 3, (4 : ℚ)] [0, 1, 2] = 0 := by
    norm_num [overlapStart, searchsorted_left, listMin, min_def, List.countP, List.countP.go]
  have heA : overlapEnd [0, 1, 2, 3, (4 : ℚ)] [0, 1, 2] = 3 := by
    norm_num [overlapEnd, searchsorted_left, listMax, max_def, List.countP, List.countP.go]
  have hsB : overlapStart [0, 1, 2, 3, (4 : ℚ)] [0, 2, 4] = 0 := by
    norm_num [overlapStart, searchsorted_left, listMin, min_def, List.countP, List.countP.go]
  have heB : overlapEnd [0, 1, 2, 3, (4 : ℚ)] [0, 2, 4] = 5 := by
    norm_num [overlapEnd, searchsorted_left, listMax, max_def, List.countP, List.countP.go]
  refine ⟨hm, ?_, ?_⟩
  · intro c _
    rw [hm]
    constructor
    · simp [interpolate_to_master, hsA, heA]
    · simp [interpolate_to_master, hsA, heA]
  · intro c hc i hi
    rw [hm]
    simp [interpolate_to_master, hsB, heB, hc, hi]

/-- C2 (amended): on a sorted master grid, every master point strictly
below the series' `times.min()` holds the "no data" sentinel; a master
point strictly above `times.max()` holds the sentinel with one exception:
the single grid point at position `end_idx - 1` (when it lies strictly
above the series' maximum because the maximum falls between grid points)
receives the clamped boundary sample `positions[.., len-1, ..]` of the
series itself - still never a linearly extrapolated value, but not the
sentinel the claim requires. -/
theorem c2_no_extrapolation_amended (master_time original_times : List ℚ)
    (positions : ℕ → ℕ → ℕ → ℚ)
    (hm : List.Sorted (· ≤ ·) master_time) (htne : original_times ≠ []) :
    ∀ coord i particle, i < master_time.length →
      (master_time.getD i 0 < listMin original_times →
        interpolate_to_master master_time original_times positions coord i particle = none) ∧
      (listMax original_times < master_time.getD i 0 →
        interpolate_to_master master_time original_times positions coord i particle = none ∨
        (i + 1 = overlapEnd master_time original_times ∧
          interpolate_to_master master_time original_times positions coord i particle =
            some (positions coord (original_times.length - 1) particle))) := by
  intro coord i particle hi
  constructor
  · intro hlow
    rw [List.getD_eq_getElem _ _ hi] at hlow
    have hlt : i < overlapStart master_time original_times :=
      countP_gt_of_sorted master_time (listMin original_times) hm i hi hlow
    unfold interpolate_to_master
    rw [if_neg]
    rintro ⟨-, hle, -⟩
    omega
  · intro hhigh
    rw [List.getD_eq_getElem _ _ hi] at hhigh
    have hj : searchsorted_left master_time (listMax original_times) ≤ i :=
      countP_le_of_sorted master_time (listMax original_times) hm i hi hhigh
    by_cases hcond : coord < 3 ∧ overlapStart master_time original_times ≤ i ∧
        i < overlapEnd master_time original_times
    · right
      have hiend : i < overlapEnd master_time original_times := hcond.2.2
      have hend : overlapEnd master_time original_times = i + 1 := by
        unfold overlapEnd at hiend ⊢
        omega
      refine ⟨hend.symm, ?_⟩
      unfold interpolate_to_master
      rw [if_pos hcond]
      congr 1
      have hfp : ((List.range original_times.length).map
          (fun k => positions coord k particle)).length = original_times.length := by
        rw [List.length_map, List.length_range]
      have hzne : original_times.zip ((List.range original_times.length).map
          (fun k => positions coord k particle)) ≠ [] := by
        apply List.ne_nil_of_length_pos
        rw [List.length_zip, hfp]
        simp [Nat.pos_of_ne_zero]
        exact List.length_pos.mpr htne
      have hfst : (original_times.zip ((List.range original_times.length).map
          (fun k => positions coord k particle))).map Prod.fst = original_times :=
        List.map_fst_zip _ _ (by rw [hfp])
      have hall : ∀ t ∈ (original_times.zip ((List.range original_times.length).map
          (fun k => positions coord k particle))).map Prod.fst,
          t < master_time.getD i 0 := by
        rw [hfst]
        intro t htmem
        exact lt_of_le_of_lt (mem_le_listMax _ _ htmem) (by rwa [List.getD_eq_getElem _ _ hi])
      unfold np_interp
      rw [List.getD_eq_getElem _ _ hi]
      rw [interpPairs_clamp_right _ _ hzne (by rw [List.getD_eq_getElem _ _ hi] at hall; exact hall)]
      have hlen : (original_times.zip ((List.range original_times.length).map
          (fun k => positions coord k particle))).length = original_times.length := by
        rw [List.length_zip, hfp]
        omega
      rw [getLastD_eq_getElem _ _ hzne]
      have hpos : original_times.length - 1 < original_times.length := by
        have := List.length_pos.mpr htne
        omega
      simp only [List.getElem_zip, hlen]
      simp [List.getElem_map, List.getElem_range]
    · left
      unfold interpolate_to_master
      rw [if_neg hcond]

/-- C2 counterexample: with series A times `[0, 3/2]` (constant position
5) and series B times `[0, 1, 2, 3]`, the master grid is `[0, 1, 2, 3]`;
the master point `2` lies strictly outside A's coverage `[0, 3/2]` yet
the synced output for A at that grid index is the value `5`, not the
"no data" sentinel the claim requires. -/
theorem c2_counterexample :
    create_master_timeline [[0, 3/2], [(0 : ℚ), 1, 2, 3]] = [0, 1, 2, 3] ∧
    listMax [(0 : ℚ), 3/2] = 3/2 ∧
    ((3 : ℚ)/2 < 2) ∧
    interpolate_to_master (create_master_timeline [[0, 3/2], [(0 : ℚ), 1, 2, 3]])
      [0, 3/2] (fun _ _ _ => 5) 0 2 0 = some 5 := by
  have h1 : earliest_time [[0, 3/2], [(0 : ℚ), 1, 2, 3]] = 0 := by
    norm_num [earliest_time, listMin, min_def]
  have h2 : latest_time [[0, 3/2], [(0 : ℚ), 1, 2, 3]] = 3 := by
    norm_num [latest_time, listMax, max_def]
  have h3 : series_timesteps [[0, 3/2], [(0 : ℚ), 1, 2, 3]] = [3/2, 1] := by
    norm_num [series_timesteps, List.filterMap_cons, List.getD, abs_of_nonneg]
  have h4 : finest_dt [[0, 3/2], [(0 : ℚ), 1, 2, 3]] = 1 := by
    unfold finest_dt
    rw [h3]
    norm_num [listMin, min_def]
  have h5 : n_steps [[0, 3/2], [(0 : ℚ), 1, 2, 3]] = 4 := by
    unfold n_steps
    rw [h1, h2, h4]
    norm_num
    decide
  have hmaster : create_master_timeline [[0, 3/2], [(0 : ℚ), 1, 2, 3]] = [0, 1, 2, 3] := by
    unfold create_master_timeline
    rw [h1, h2, h5]
    norm_num [linspace, List.range_succ]
  have hs : overlapStart [0, 1, 2, (3 : ℚ)] [0, 3/2] = 0 := by
    norm_num [overlapStart, searchsorted_left, listMin, min_def, List.countP, List.countP.go]
  have he : overlapEnd [0, 1, 2, (3 : ℚ)] [0, 3/2] = 3 := by
    norm_num [overlapEnd, searchsorted_left, listMax, max_def, List.countP, List.countP.go]
  refine ⟨hmaster, by norm_num [listMax, max_def], by norm_num, ?_⟩
  rw [hmaster]
  unfold interpolate_to_master
  rw [if_pos ⟨by norm_num, by rw [hs]; omega, by rw [he]; omega⟩]
  congr 1
  norm_num [np_interp, List.range_succ, interpPairs, List.getD]

/-- C2 witness: the amended theorem applied to master grid `[0,1,2,3]`
and a series covering `[1, 3/2]`: the master point `0`, strictly below
the series minimum, holds the sentinel. -/
theorem c2_witness :
    interpolate_to_master [0, 1, 2, (3 : ℚ)] [1, 3/2] (fun _ _ _ => 5) 0 0 0 = none := by
  have hm : List.Sorted (· ≤ ·) [0, 1, 2, (3 : ℚ)] := by
    norm_num [List.sorted_cons]
  have h := (c2_no_extrapolation_amended [0, 1, 2, (3 : ℚ)] [1, 3/2] (fun _ _ _ => 5) hm
    (by simp) 0 0 0 (by norm_num)).1
  exact h (by norm_num [listMin, min_def, List.getD])

/-- C10: every non-sentinel value in the synced output lies between the
minimum and the maximum of that particle's native samples for that
coordinate - per-particle linear interpolation (with boundary clamping)
never leaves the range of the series' own sampled values. -/
theorem c10_interpolation_bounds (master_time original_times : List ℚ)
    (positions : ℕ → ℕ → ℕ → ℚ)
    (ht : List.Sorted (· < ·) original_times) (htne : original_times ≠ []) :
    ∀ coord i particle v,
      interpolate_to_master master_time original_times positions coord i particle = some v →
      listMin ((List.range original_times.length).map (fun k => positions coord k particle)) ≤ v ∧
      v ≤ listMax ((List.range original_times.length).map (fun k => positions coord k particle)) := by
  intro coord i particle v hv
  unfold interpolate_to_master at hv
  by_cases hc : coord < 3 ∧ overlapStart master_time original_times ≤ i ∧
      i < overlapEnd master_time original_times
  · rw [if_pos hc] at hv
    have hval : v = np_interp (master_time.getD i 0) original_times
        ((List.range original_times.length).map (fun k => positions coord k particle)) := by
      exact (Option.some_inj.mp hv).symm
    have hfp : ((List.range original_times.length).map
        (fun k => positions coord k particle)).length = original_times.length := by
      rw [List.length_map, List.length_range]
    have hfst : (original_times.zip ((List.range original_times.length).map
        (fun k => positions coord k particle))).map Prod.fst = original_times :=
      List.map_fst_zip _ _ (by rw [hfp])
    have hsnd : (original_times.zip ((List.range original_times.length).map
        (fun k => positions coord k particle))).map Prod.snd =
        (List.range original_times.length).map (fun k => positions coord k particle) :=
      List.map_snd_zip _ _ (by rw [hfp])
    have hzne : original_times.zip ((List.range original_times.length).map
        (fun k => positions coord k particle)) ≠ [] := by
      apply List.ne_nil_of_length_pos
      rw [List.length_zip, hfp]
      simp only [min_self]
      exact List.length_pos.mpr htne
    have hb := interpPairs_bounds (master_time.getD i 0) _ (by rw [hfst]; exact ht) hzne
    rw [hsnd] at hb
    rw [hval]
    exact hb
  · rw [if_neg hc] at hv
    cases hv

/-- C9: resampling a single series whose native time grid exactly equals
the computed master timeline returns the original position values at
every grid point, coordinate and particle (exactly, in the rational
embedding), with no "no data" sentinel anywhere in the array. -/
theorem c9_idempotent_resampling (times : List ℚ) (positions : ℕ → ℕ → ℕ → ℚ)
    (ht : List.Sorted (· < ·) times) (htne : times ≠ [])
    (hmaster : create_master_timeline [times] = times) :
    ∀ coord i particle, coord < 3 → i < times.length →
      interpolate_to_master (create_master_timeline [times]) times positions coord i particle =
        some (positions coord i particle) := by
  intro coord i particle hc hi
  rw [hmaster]
  have hstart : overlapStart times times = 0 := by
    unfold overlapStart searchsorted_left
    exact countP_lt_listMin times
  have hendc : times.countP (fun x => decide (x < listMax times)) = times.length - 1 :=
    countP_lt_listMax_strict times ht htne
  have hend : overlapEnd times times = times.length := by
    unfold overlapEnd searchsorted_left
    rw [hendc]
    have := List.length_pos.mpr htne
    omega
  unfold interpolate_to_master
  rw [if_pos ⟨hc, by omega, by rw [hend]; exact hi⟩]
  congr 1
  unfold np_interp
  have hfp : ((List.range times.length).map
      (fun k => positions coord k particle)).length = times.length := by
    rw [List.length_map, List.length_range]
  have hfst : (times.zip ((List.range times.length).map
      (fun k => positions coord k particle))).map Prod.fst = times :=
    List.map_fst_zip _ _ (by rw [hfp])
  have hplen : (times.zip ((List.range times.length).map
      (fun k => positions coord k particle))).length = times.length := by
    rw [List.length_zip, hfp]
    omega
  have hnode := interpPairs_at_node _ (by rw [hfst]; exact ht) i (by rw [hplen]; exact hi)
  simp only [List.getElem_zip, List.getElem_map, List.getElem_range] at hnode
  rw [List.getD_eq_getElem _ _ hi]
  exact hnode

/-- C10 witness: the bounds theorem applied to the series with times
`[0, 2]` and samples 3 and 7: the interpolated value 5 at master time 1
lies between 3 and 7. -/
theorem c10_witness :
    listMin ((List.range 2).map (fun k => if k = 0 then (3 : ℚ) else 7)) ≤ 5 ∧
    (5 : ℚ) ≤ listMax ((List.range 2).map (fun k => if k = 0 then (3 : ℚ) else 7)) := by
  have hs : overlapStart [0, 1, (2 : ℚ)] [0, 2] = 0 := by
    norm_num [overlapStart, searchsorted_left, listMin, min_def, List.countP, List.countP.go]
  have he : overlapEnd [0, 1, (2 : ℚ)] [0, 2] = 3 := by
    norm_num [overlapEnd, searchsorted_left, listMax, max_def, List.countP, List.countP.go]
  have hv : interpolate_to_master [0, 1, (2 : ℚ)] [0, 2]
      (fun _ k _ => if k = 0 then (3 : ℚ) else 7) 0 1 0 = some 5 := by
    unfold interpolate_to_master
    rw [if_pos ⟨by norm_num, by rw [hs]; omega, by rw [he]; omega⟩]
    congr 1
    norm_num [np_interp, List.range_succ, interpPairs, List.getD]
  exact c10_interpolation_bounds [0, 1, 2] [0, 2] (fun _ k _ => if k = 0 then (3 : ℚ) else 7)
    (by norm_num [List.sorted_cons]) (by simp) 0 1 0 5 hv

/-- C9 witness: the idempotence theorem applied to the single series
with times `[0, 1, 2]`, whose master grid is itself; the sample at grid
index 1 comes back unchanged. -/
theorem c9_witness :
    interpolate_to_master (create_master_timeline [[0, 1, 2]]) [0, 1, 2]
      (fun _ k _ => if k = 1 then (7 : ℚ) else 3) 0 1 0 = some 7 := by
  have h1 : earliest_time [[(0 : ℚ), 1, 2]] = 0 := by
    norm_num [earliest_time, listMin, min_def]
  have h2 : latest_time [[(0 : ℚ), 1, 2]] = 2 := by
    norm_num [latest_time, listMax, max_def]
  have h3 : series_timesteps [[(0 : ℚ), 1, 2]] = [1] := by
    norm_num [series_timesteps, List.filterMap_cons, List.getD, abs_of_nonneg]
  have h4 : finest_dt [[(0 : ℚ), 1, 2]] = 1 := by
    unfold finest_dt
    rw [h3]
    norm_num [listMin]
  have h5 : n_steps [[(0 : ℚ), 1, 2]] = 3 := by
    unfold n_steps
    rw [h1, h2, h4]
    norm_num
    decide
  have hmaster : create_master_timeline [[(0 : ℚ), 1, 2]] = [0, 1, 2] := by
    unfold create_master_timeline
    rw [h1, h2, h5]
    norm_num [linspace, List.range_succ]
  exact c9_idempotent_resampling [0, 1, 2] (fun _ k _ => if k = 1 then (7 : ℚ) else 3)
    (by norm_num [List.sorted_cons]) (by simp) hmaster 0 1 0 (by norm_num) (by norm_num)

theorem chunkRows_three_spec : ∀ (k : ℕ) (l : List ℚ), l.length = 3 * k →
    (chunkRows 3 l).length = k ∧
    (∀ i, i < k → ((chunkRows 3 l).getD i []).length = 3) ∧
    (∀ i j, i < k → j < 3 →
      ((chunkRows 3 l).getD i []).getD j 0 = l.getD (3 * i + j) 0) := by
  intro k
  induction k with
  | zero =>
    intro l hl
    have : l = [] := List.eq_nil_of_length_eq_zero (by omega)
    subst this
    simp [chunkRows]
  | succ m ih =>
    intro l hl
    match l with
    | [] => simp at hl
    | [a] => simp at hl; omega
    | [a, b] => simp at hl; omega
    | a :: b :: c :: rest =>
      have hrest : rest.length = 3 * m := by
        simp at hl
        omega
      have hchunk : chunkRows 3 (a :: b :: c :: rest) = [a, b, c] :: chunkRows 3 rest := by
        rw [chunkRows]
        simp
      obtain ⟨ihlen, ihrow, ihval⟩ := ih rest hrest
      refine ⟨by rw [hchunk]; simp [ihlen], ?_, ?_⟩
      · intro i hi
        cases i with
        | zero => rw [hchunk]; simp
        | succ i' =>
          rw [hchunk]
          simpa using ihrow i' (by omega)
      · intro i j hi hj
        cases i with
        | zero =>
          rw [hchunk]
          interval_cases j <;> simp
        | succ i' =>
          rw [hchunk]
          have h1 : 3 * (i' + 1) + j = (3 * i' + j) + 1 + 1 + 1 := by ring
          rw [h1]
          simpa using ihval i' j (by omega) hj

theorem pySliceTake_nonneg (n : ℕ) (l : List ℚ) : pySliceTake (n : ℤ) l = l.take n := by
  unfold pySliceTake
  rw [if_pos (Int.natCast_nonneg n)]
  simp

/-- C6: the Mass result is the first `particle_count` tokens as a flat
vector, the Position and Velocity results are the first
`particle_count * 3` tokens reshaped row-major into `particle_count`
rows of 3 components, and excess trailing tokens are dropped without
error; in particular 6 tokens declared for 2 particles become the 2 by 3
matrix of those tokens read row-major. -/
theorem c6_reshape_rowmajor (numbers : List ℚ) (pc : ℕ) (hlen : pc * 3 ≤ numbers.length) :
    reshape_for_particles numbers (pc : ℤ) 1 = .ok (.vec (numbers.take pc)) ∧
    (∃ rows, reshape_for_particles numbers (pc : ℤ) 3 = .ok (.mat rows) ∧
      rows.length = pc ∧
      (∀ i, i < pc → (rows.getD i []).length = 3 ∧
        (∀ j, j < 3 → (rows.getD i []).getD j 0 = numbers.getD (3 * i + j) 0))) ∧
    reshape_for_particles [1, 2, 3, 4, 5, 6] 2 3 = .ok (.mat [[1, 2, 3], [4, 5, 6]]) := by
  have hcast : ((pc : ℤ) * ((3 : ℕ) : ℤ)) = ((pc * 3 : ℕ) : ℤ) := by push_cast; ring
  have hslice : pySliceTake ((pc : ℤ) * ((3 : ℕ) : ℤ)) numbers = numbers.take (pc * 3) := by
    rw [hcast, pySliceTake_nonneg]
  have hslen : (numbers.take (pc * 3)).length = 3 * pc := by
    rw [List.length_take]
    omega
  obtain ⟨hclen, hcrow, hcval⟩ := chunkRows_three_spec pc (numbers.take (pc * 3)) hslen
  refine ⟨?_, ?_, ?_⟩
  · unfold reshape_for_particles
    rw [if_pos rfl, pySliceTake_nonneg]
  · refine ⟨chunkRows 3 (numbers.take (pc * 3)), ?_, hclen, ?_⟩
    · unfold reshape_for_particles
      rw [if_neg (by omega)]
      simp only [hslice]
      rw [if_pos (Int.natCast_nonneg pc)]
      rw [if_pos (by rw [hslen]; simp [Int.toNat_natCast]; ring)]
    · intro i hi
      refine ⟨hcrow i hi, ?_⟩
      intro j hj
      rw [hcval i j hi hj]
      have hb : 3 * i + j < pc * 3 := by omega
      rw [List.getD_eq_getElem _ _ (by rw [List.length_take]; omega),
        List.getD_eq_getElem _ _ (by omega : 3 * i + j < numbers.length)]
      rw [List.getElem_take]
  · have h6 : Int.toNat 6 = 6 := rfl
    have h2 : Int.toNat 2 = 2 := rfl
    norm_num [reshape_for_particles, pySliceTake, chunkRows, h6, h2]

/-- C6 witness: seven tokens declared for two particles: the Mass branch
keeps the first two and drops the excess without error. -/
theorem c6_witness :
    reshape_for_particles [1, 2, 3, 4, 5, 6, 7] ((2 : ℕ) : ℤ) 1 = .ok (.vec [1, 2]) := by
  have h := (c6_reshape_rowmajor [1, 2, 3, 4, 5, 6, 7] 2 (by norm_num)).1
  simpa using h

theorem pyFloat_digit_dot_digit (a b : Char) (ha : a.isDigit = true) (hb : b.isDigit = true) :
    pyFloat? [a, '.', b] = some (((a.toNat - 48 : ℕ) : ℚ) + ((b.toNat - 48 : ℕ) : ℚ) / 10) := by
  have hap : (a = '+') = False := by
    simp only [eq_iff_iff, iff_false]
    rintro rfl
    simp [Char.isDigit] at ha
  have ham : (a = '-') = False := by
    simp only [eq_iff_iff, iff_false]
    rintro rfl
    simp [Char.isDigit] at ha
  have hae : (a == 'e') = false := by
    rw [beq_eq_false_iff_ne]
    rintro rfl
    simp [Char.isDigit] at ha
  have haE : (a == 'E') = false := by
    rw [beq_eq_false_iff_ne]
    rintro rfl
    simp [Char.isDigit] at ha
  have hbe : (b == 'e') = false := by
    rw [beq_eq_false_iff_ne]
    rintro rfl
    simp [Char.isDigit] at hb
  have hbE : (b == 'E') = false := by
    rw [beq_eq_false_iff_ne]
    rintro rfl
    simp [Char.isDigit] at hb
  have hsign : signSplitQ [a, '.', b] = (1, [a, '.', b]) := by
    simp [signSplitQ, hap, ham]
  have hdotdig : ('.' : Char).isDigit = false := by decide
  have hmant : ([a, '.', b].takeWhile (fun c => !(c == 'e' || c == 'E'))) = [a, '.', b] := by
    simp [List.takeWhile_cons, hae, haE, hbe, hbE]
  have hip : ([a, '.', b].takeWhile Char.isDigit) = [a] := by
    simp [List.takeWhile_cons, ha, hdotdig]
  have hmantissa : mantissa? [a, '.', b] =
      some (((a.toNat - 48 : ℕ) : ℚ) + ((b.toNat - 48 : ℕ) : ℚ) / 10) := by
    unfold mantissa?
    simp only [hip, List.length_singleton, List.drop_succ_cons, List.drop_zero]
    simp [hb, digitFold]
  unfold pyFloat?
  simp only [hsign, hmant]
  rw [hmantissa]
  simp

theorem pyFloat_digit0 (a : Char) (ha : a.isDigit = true) :
    pyFloat? [a, '.', '0'] = some ((a.toNat - 48 : ℕ) : ℚ) := by
  rw [pyFloat_digit_dot_digit a '0' ha (by decide)]
  norm_num [show ('0'.toNat - 48 : ℕ) = 0 from rfl]

theorem numbersGo_stop (name r : List Char) (rest : List (List Char))
    (h : should_stop_parsing (pyStrip r) name = true) :
    numbersGo name (r :: rest) = .ok [] := by
  simp only [numbersGo, h, if_true]

theorem numbersGo_decl_only (name decl : List Char) (rest : List (List Char))
    (idx : ℕ) (vs : List ℚ)
    (hstop : should_stop_parsing (pyStrip decl) name = false)
    (hcont : containsSeq (name ++ [ '[' ]) (pyStrip decl) = true)
    (hidx : (pyWords (pyStrip decl)).findIdx? (fun p => p.contains ']') = some idx)
    (hfl : floatList? ((pyWords (pyStrip decl)).drop (idx + 1)) = some vs)
    (hrest : numbersGo name rest = .ok []) :
    numbersGo name (decl :: rest) = .ok vs := by
  simp only [numbersGo, hstop, hcont, hidx, hfl, hrest, Bool.false_eq_true, if_false, if_true]
  simp

set_option maxRecDepth 100000 in
/-- C1 counterexample: a block declaring `int Nobj 2` whose Mass section
holds a single numeric token parses successfully: the Mass vector comes
back with leading dimension 1, not the declared particle count 2, and a
partially populated result is returned instead of an error (the silent
`numbers[:particle_count]` truncation of `reshape_for_particles`). -/
theorem c1_counterexample :
    parse_converted_falcon_output (cs "junk\nset SnapShot\n  int Nobj 2\n  double Time 0.0\n  float Position[2] 1.0 2.0 3.0 4.0 5.0 6.0\n  float Velocity[2] 1.0 1.0 1.0 2.0 2.0 2.0\n  double Mass[2] 7.0\ntes") 0 =
      .ok ⟨.mat [[1, 2, 3], [4, 5, 6]], .mat [[1, 1, 1], [2, 2, 2]], .vec [7], some 0, 2⟩ ∧
    leadingDim (NumArr.vec [7]) = 1 ∧ (1 : ℕ) ≠ 2 := by
  have t0 : pyFloat? (cs "0.0") = some 0 := by
    rw [show cs "0.0" = ['0', '.', '0'] from rfl, pyFloat_digit0 '0' (by decide)]
    norm_num [show ('0'.toNat - 48 : ℕ) = 0 from rfl]
  have t1 : pyFloat? (cs "1.0") = some 1 := by
    rw [show cs "1.0" = ['1', '.', '0'] from rfl, pyFloat_digit0 '1' (by decide)]
    norm_num [show ('1'.toNat - 48 : ℕ) = 1 from rfl]
  have t2 : pyFloat? (cs "2.0") = some 2 := by
    rw [show cs "2.0" = ['2', '.', '0'] from rfl, pyFloat_digit0 '2' (by decide)]
    norm_num [show ('2'.toNat - 48 : ℕ) = 2 from rfl]
  have t3 : pyFloat? (cs "3.0") = some 3 := by
    rw [show cs "3.0" = ['3', '.', '0'] from rfl, pyFloat_digit0 '3' (by decide)]
    norm_num [show ('3'.toNat - 48 : ℕ) = 3 from rfl]
  have t4 : pyFloat? (cs "4.0") = some 4 := by
    rw [show cs "4.0" = ['4', '.', '0'] from rfl, pyFloat_digit0 '4' (by decide)]
    norm_num [show ('4'.toNat - 48 : ℕ) = 4 from rfl]
  have t5 : pyFloat? (cs "5.0") = some 5 := by
    rw [show cs "5.0" = ['5', '.', '0'] from rfl, pyFloat_digit0 '5' (by decide)]
    norm_num [show ('5'.toNat - 48 : ℕ) = 5 from rfl]
  have t6 : pyFloat? (cs "6.0") = some 6 := by
    rw [show cs "6.0" = ['6', '.', '0'] from rfl, pyFloat_digit0 '6' (by decide)]
    norm_num [show ('6'.toNat - 48 : ℕ) = 6 from rfl]
  have t7 : pyFloat? (cs "7.0") = some 7 := by
    rw [show cs "7.0" = ['7', '.', '0'] from rfl, pyFloat_digit0 '7' (by decide)]
    norm_num [show ('7'.toNat - 48 : ℕ) = 7 from rfl]
  have hfl_pos : floatList? [cs "1.0", cs "2.0", cs "3.0", cs "4.0", cs "5.0", cs "6.0"] =
      some [1, 2, 3, 4, 5, 6] := by
    simp only [floatList?, t1, t2, t3, t4, t5, t6]
  have hfl_vel : floatList? [cs "1.0", cs "1.0", cs "1.0", cs "2.0", cs "2.0", cs "2.0"] =
      some [1, 1, 1, 2, 2, 2] := by
    simp only [floatList?, t1, t2]
  have hfl_mass : floatList? [cs "7.0"] = some [7] := by
    simp only [floatList?, t7]
  have hGoP : numbersGo (cs "Position") [cs "  float Position[2] 1.0 2.0 3.0 4.0 5.0 6.0", cs "  float Velocity[2] 1.0 1.0 1.0 2.0 2.0 2.0", cs "  double Mass[2] 7.0", cs "tes"] =
      .ok [1, 2, 3, 4, 5, 6] := by
    refine numbersGo_decl_only _ _ _ 1 _ (by decide) (by decide) (by decide) ?_
      (numbersGo_stop _ _ _ (by decide))
    rw [show pyStrip (cs "  float Position[2] 1.0 2.0 3.0 4.0 5.0 6.0") = cs "float Position[2] 1.0 2.0 3.0 4.0 5.0 6.0" from by decide]
    rw [show pyWords (cs "float Position[2] 1.0 2.0 3.0 4.0 5.0 6.0") =
      [cs "float", cs "Position[2]", cs "1.0", cs "2.0", cs "3.0", cs "4.0", cs "5.0", cs "6.0"]
      from by decide]
    simpa using hfl_pos
  have hGoV : numbersGo (cs "Velocity") [cs "  float Velocity[2] 1.0 1.0 1.0 2.0 2.0 2.0", cs "  double Mass[2] 7.0", cs "tes"] =
      .ok [1, 1, 1, 2, 2, 2] := by
    refine numbersGo_decl_only _ _ _ 1 _ (by decide) (by decide) (by decide) ?_
      (numbersGo_stop _ _ _ (by decide))
    rw [show pyStrip (cs "  float Velocity[2] 1.0 1.0 1.0 2.0 2.0 2.0") = cs "float Velocity[2] 1.0 1.0 1.0 2.0 2.0 2.0" from by decide]
    rw [show pyWords (cs "float Velocity[2] 1.0 1.0 1.0 2.0 2.0 2.0") =
      [cs "float", cs "Velocity[2]", cs "1.0", cs "1.0", cs "1.0", cs "2.0", cs "2.0", cs "2.0"]
      from by decide]
    simpa using hfl_vel
  have hGoM : numbersGo (cs "Mass") [cs "  double Mass[2] 7.0", cs "tes"] = .ok [7] := by
    refine numbersGo_decl_only _ _ _ 1 _ (by decide) (by decide) (by decide) ?_
      (numbersGo_stop _ _ _ (by decide))
    rw [show pyStrip (cs "  double Mass[2] 7.0") = cs "double Mass[2] 7.0" from by decide]
    rw [show pyWords (cs "double Mass[2] 7.0") = [cs "double", cs "Mass[2]", cs "7.0"]
      from by decide]
    simpa using hfl_mass
  have hnumP : extract_numbers_from_section [cs "set SnapShot", cs "  int Nobj 2", cs "  double Time 0.0", cs "  float Position[2] 1.0 2.0 3.0 4.0 5.0 6.0", cs "  float Velocity[2] 1.0 1.0 1.0 2.0 2.0 2.0", cs "  double Mass[2] 7.0", cs "tes"] 3 (cs "Position") = .ok [1, 2, 3, 4, 5, 6] := by
    unfold extract_numbers_from_section
    simp only [List.drop_succ_cons, List.drop_zero]
    exact hGoP
  have hnumV : extract_numbers_from_section [cs "set SnapShot", cs "  int Nobj 2", cs "  double Time 0.0", cs "  float Position[2] 1.0 2.0 3.0 4.0 5.0 6.0", cs "  float Velocity[2] 1.0 1.0 1.0 2.0 2.0 2.0", cs "  double Mass[2] 7.0", cs "tes"] 4 (cs "Velocity") = .ok [1, 1, 1, 2, 2, 2] := by
    unfold extract_numbers_from_section
    simp only [List.drop_succ_cons, List.drop_zero]
    exact hGoV
  have hnumM : extract_numbers_from_section [cs "set SnapShot", cs "  int Nobj 2", cs "  double Time 0.0", cs "  float Position[2] 1.0 2.0 3.0 4.0 5.0 6.0", cs "  float Velocity[2] 1.0 1.0 1.0 2.0 2.0 2.0", cs "  double Mass[2] 7.0", cs "tes"] 5 (cs "Mass") = .ok [7] := by
    unfold extract_numbers_from_section
    simp only [List.drop_succ_cons, List.drop_zero]
    exact hGoM
  have hfindP : find_array_start_line [cs "set SnapShot", cs "  int Nobj 2", cs "  double Time 0.0", cs "  float Position[2] 1.0 2.0 3.0 4.0 5.0 6.0", cs "  float Velocity[2] 1.0 1.0 1.0 2.0 2.0 2.0", cs "  double Mass[2] 7.0", cs "tes"] (cs "Position") 2 = .ok 3 := by decide
  have hfindV : find_array_start_line [cs "set SnapShot", cs "  int Nobj 2", cs "  double Time 0.0", cs "  float Position[2] 1.0 2.0 3.0 4.0 5.0 6.0", cs "  float Velocity[2] 1.0 1.0 1.0 2.0 2.0 2.0", cs "  double Mass[2] 7.0", cs "tes"] (cs "Velocity") 2 = .ok 4 := by decide
  have hfindM : find_array_start_line [cs "set SnapShot", cs "  int Nobj 2", cs "  double Time 0.0", cs "  float Position[2] 1.0 2.0 3.0 4.0 5.0 6.0", cs "  float Velocity[2] 1.0 1.0 1.0 2.0 2.0 2.0", cs "  double Mass[2] 7.0", cs "tes"] (cs "Mass") 2 = .ok 5 := by decide
  have hreshP : reshape_for_particles [1, 2, 3, 4, 5, 6] 2 3 = .ok (.mat [[1, 2, 3], [4, 5, 6]]) := by
    norm_num [reshape_for_particles, pySliceTake, chunkRows,
      show Int.toNat 6 = 6 from rfl, show Int.toNat 2 = 2 from rfl]
  have hreshV : reshape_for_particles [1, 1, 1, 2, 2, 2] 2 3 = .ok (.mat [[1, 1, 1], [2, 2, 2]]) := by
    norm_num [reshape_for_particles, pySliceTake, chunkRows,
      show Int.toNat 6 = 6 from rfl, show Int.toNat 2 = 2 from rfl]
  have hreshM : reshape_for_particles [7] 2 1 = .ok (.vec [7]) := by
    norm_num [reshape_for_particles, pySliceTake, show Int.toNat 2 = 2 from rfl]
  have harrP : extract_particle_array [cs "set SnapShot", cs "  int Nobj 2", cs "  double Time 0.0", cs "  float Position[2] 1.0 2.0 3.0 4.0 5.0 6.0", cs "  float Velocity[2] 1.0 1.0 1.0 2.0 2.0 2.0", cs "  double Mass[2] 7.0", cs "tes"] (cs "Position") 2 3 =
      .ok (.mat [[1, 2, 3], [4, 5, 6]]) := by
    simp only [extract_particle_array, hfindP, hnumP, hreshP]
  have harrV : extract_particle_array [cs "set SnapShot", cs "  int Nobj 2", cs "  double Time 0.0", cs "  float Position[2] 1.0 2.0 3.0 4.0 5.0 6.0", cs "  float Velocity[2] 1.0 1.0 1.0 2.0 2.0 2.0", cs "  double Mass[2] 7.0", cs "tes"] (cs "Velocity") 2 3 =
      .ok (.mat [[1, 1, 1], [2, 2, 2]]) := by
    simp only [extract_particle_array, hfindV, hnumV, hreshV]
  have harrM : extract_particle_array [cs "set SnapShot", cs "  int Nobj 2", cs "  double Time 0.0", cs "  float Position[2] 1.0 2.0 3.0 4.0 5.0 6.0", cs "  float Velocity[2] 1.0 1.0 1.0 2.0 2.0 2.0", cs "  double Mass[2] 7.0", cs "tes"] (cs "Mass") 2 1 = .ok (.vec [7]) := by
    simp only [extract_particle_array, hfindM, hnumM, hreshM]
  have hfl : pyFloat? ((pyWords (cs "  double Time 0.0")).getLastD []) = some 0 := by
    rw [show (pyWords (cs "  double Time 0.0")).getLastD [] = cs "0.0" from by decide]
    exact t0
  have hint : pyInt? ((pyWords (cs "  int Nobj 2")).getLastD []) = some 2 := by decide
  have hinfo : extract_simulation_info [cs "set SnapShot", cs "  int Nobj 2", cs "  double Time 0.0", cs "  float Position[2] 1.0 2.0 3.0 4.0 5.0 6.0", cs "  float Velocity[2] 1.0 1.0 1.0 2.0 2.0 2.0", cs "  double Mass[2] 7.0", cs "tes"] = .ok (2, some 0) := by
    unfold extract_simulation_info
    simp only [simInfoGo, hint, hfl,
      show containsSeq (cs "int Nobj") (cs "set SnapShot") = false from by decide,
      show containsSeq (cs "double Time") (cs "set SnapShot") = false from by decide,
      show containsSeq (cs "int Nobj") (cs "  int Nobj 2") = true from by decide,
      show containsSeq (cs "int Nobj") (cs "  double Time 0.0") = false from by decide,
      show containsSeq (cs "double Time") (cs "  double Time 0.0") = true from by decide,
      show containsSeq (cs "int Nobj") (cs "  float Position[2] 1.0 2.0 3.0 4.0 5.0 6.0") = false from by decide,
      show containsSeq (cs "double Time") (cs "  float Position[2] 1.0 2.0 3.0 4.0 5.0 6.0") = false from by decide,
      show containsSeq (cs "int Nobj") (cs "  float Velocity[2] 1.0 1.0 1.0 2.0 2.0 2.0") = false from by decide,
      show containsSeq (cs "double Time") (cs "  float Velocity[2] 1.0 1.0 1.0 2.0 2.0 2.0") = false from by decide,
      show containsSeq (cs "int Nobj") (cs "  double Mass[2] 7.0") = false from by decide,
      show containsSeq (cs "double Time") (cs "  double Mass[2] 7.0") = false from by decide,
      show containsSeq (cs "int Nobj") (cs "tes") = false from by decide,
      show containsSeq (cs "double Time") (cs "tes") = false from by decide,
      Bool.false_eq_true, if_false, if_true]
  have hlines : splitOnChar '\n' (cs "set SnapShot\n  int Nobj 2\n  double Time 0.0\n  float Position[2] 1.0 2.0 3.0 4.0 5.0 6.0\n  float Velocity[2] 1.0 1.0 1.0 2.0 2.0 2.0\n  double Mass[2] 7.0\ntes") = [cs "set SnapShot", cs "  int Nobj 2", cs "  double Time 0.0", cs "  float Position[2] 1.0 2.0 3.0 4.0 5.0 6.0", cs "  float Velocity[2] 1.0 1.0 1.0 2.0 2.0 2.0", cs "  double Mass[2] 7.0", cs "tes"] := by decide
  have hblock : parse_block (cs "set SnapShot\n  int Nobj 2\n  double Time 0.0\n  float Position[2] 1.0 2.0 3.0 4.0 5.0 6.0\n  float Velocity[2] 1.0 1.0 1.0 2.0 2.0 2.0\n  double Mass[2] 7.0\ntes") =
      .ok ⟨.mat [[1, 2, 3], [4, 5, 6]], .mat [[1, 1, 1], [2, 2, 2]], .vec [7], some 0, 2⟩ := by
    unfold parse_block
    simp only [hlines, hinfo, harrP, harrV, harrM]
  have hsplit : split_into_snapshots (cs "junk\nset SnapShot\n  int Nobj 2\n  double Time 0.0\n  float Position[2] 1.0 2.0 3.0 4.0 5.0 6.0\n  float Velocity[2] 1.0 1.0 1.0 2.0 2.0 2.0\n  double Mass[2] 7.0\ntes") = [cs "set SnapShot\n  int Nobj 2\n  double Time 0.0\n  float Position[2] 1.0 2.0 3.0 4.0 5.0 6.0\n  float Velocity[2] 1.0 1.0 1.0 2.0 2.0 2.0\n  double Mass[2] 7.0\ntes"] := by decide
  refine ⟨?_, rfl, by decide⟩
  unfold parse_converted_falcon_output
  rw [hsplit]
  norm_num [List.getD]
  exact hblock

theorem extract_array_ok_reshape (lines : List (List Char)) (name : List Char)
    (q : ℤ) (dims : ℕ) (arr : NumArr)
    (h : extract_particle_array lines name q dims = .ok arr) :
    ∃ numbers, reshape_for_particles numbers q dims = .ok arr := by
  unfold extract_particle_array at h
  cases hf : find_array_start_line lines name q with
  | error e =>
    rw [hf] at h
    exact absurd h (by simp)
  | ok start =>
    rw [hf] at h
    have h2 : (match extract_numbers_from_section lines start name with
        | Except.error e => (Except.error e : Except PErr NumArr)
        | Except.ok numbers => reshape_for_particles numbers q dims) = Except.ok arr := h
    cases hn : extract_numbers_from_section lines start name with
    | error e =>
      rw [hn] at h2
      exact absurd h2 (by simp)
    | ok numbers =>
      rw [hn] at h2
      exact ⟨numbers, h2⟩

theorem parse_block_ok_shapes (selected : List Char) (d : ParsedParticleData)
    (h : parse_block selected = .ok d) :
    (∃ np, reshape_for_particles np d.particle_count 3 = .ok d.positions) ∧
    (∃ nv, reshape_for_particles nv d.particle_count 3 = .ok d.velocities) ∧
    (∃ nm, reshape_for_particles nm d.particle_count 1 = .ok d.masses) := by
  unfold parse_block at h
  replace h : (match extract_simulation_info (splitOnChar '\n' selected) with
      | Except.error e => (Except.error e : Except PErr ParsedParticleData)
      | Except.ok info =>
        match extract_particle_array (splitOnChar '\n' selected) (cs "Position") info.1 3 with
        | Except.error e => Except.error e
        | Except.ok positions =>
          match extract_particle_array (splitOnChar '\n' selected) (cs "Velocity") info.1 3 with
          | Except.error e => Except.error e
          | Except.ok velocities =>
            match extract_particle_array (splitOnChar '\n' selected) (cs "Mass") info.1 1 with
            | Except.error e => Except.error e
            | Except.ok masses =>
              Except.ok ⟨positions, velocities, masses, info.2, info.1⟩) = Except.ok d := h
  generalize hL : splitOnChar '\n' selected = L at h
  cases hinfo : extract_simulation_info L with
  | error e =>
    rw [hinfo] at h
    exact absurd h (by simp)
  | ok info =>
    rw [hinfo] at h
    have h2 : (match extract_particle_array L (cs "Position") info.1 3 with
        | Except.error e => (Except.error e : Except PErr ParsedParticleData)
        | Except.ok positions =>
          match extract_particle_array L (cs "Velocity") info.1 3 with
          | Except.error e => Except.error e
          | Except.ok velocities =>
            match extract_particle_array L (cs "Mass") info.1 1 with
            | Except.error e => Except.error e
            | Except.ok masses =>
              Except.ok ⟨positions, velocities, masses, info.2, info.1⟩) = Except.ok d := h
    cases hp : extract_particle_array L (cs "Position") info.1 3 with
    | error e =>
      rw [hp] at h2
      exact absurd h2 (by simp)
    | ok positions =>
      rw [hp] at h2
      have h3 : (match extract_particle_array L (cs "Velocity") info.1 3 with
          | Except.error e => (Except.error e : Except PErr ParsedParticleData)
          | Except.ok velocities =>
            match extract_particle_array L (cs "Mass") info.1 1 with
            | Except.error e => Except.error e
            | Except.ok masses =>
              Except.ok ⟨positions, velocities, masses, info.2, info.1⟩) = Except.ok d := h2
      cases hv : extract_particle_array L (cs "Velocity") info.1 3 with
      | error e =>
        rw [hv] at h3
        exact absurd h3 (by simp)
      | ok velocities =>
        rw [hv] at h3
        have h4 : (match extract_particle_array L (cs "Mass") info.1 1 with
            | Except.error e => (Except.error e : Except PErr ParsedParticleData)
            | Except.ok masses =>
              Except.ok ⟨positions, velocities, masses, info.2, info.1⟩) = Except.ok d := h3
        cases hm : extract_particle_array L (cs "Mass") info.1 1 with
        | error e =>
          rw [hm] at h4
          exact absurd h4 (by simp)
        | ok masses =>
          rw [hm] at h4
          have hd : d = ⟨positions, velocities, masses, info.2, info.1⟩ :=
            (Except.ok.inj h4).symm
          subst hd
          exact ⟨extract_array_ok_reshape _ _ _ _ _ hp,
            extract_array_ok_reshape _ _ _ _ _ hv,
            extract_array_ok_reshape _ _ _ _ _ hm⟩

theorem parse_ok_exists_block (tsf : List Char) (t : ℤ) (d : ParsedParticleData)
    (h : parse_converted_falcon_output tsf t = .ok d) :
    ∃ s, parse_block s = .ok d := by
  unfold parse_converted_falcon_output at h
  replace h : (if (split_into_snapshots tsf).isEmpty then
      (Except.error PErr.noSnapshots : Except PErr ParsedParticleData)
    else if ((split_into_snapshots tsf).length : ℤ) ≤
          (if t < 0 then ((split_into_snapshots tsf).length : ℤ) + t else t) ∨
        (if t < 0 then ((split_into_snapshots tsf).length : ℤ) + t else t) < 0 then
      Except.error PErr.badTimestep
    else parse_block ((split_into_snapshots tsf).getD
      (if t < 0 then ((split_into_snapshots tsf).length : ℤ) + t else t).toNat [])) =
      Except.ok d := h
  by_cases hemp : (split_into_snapshots tsf).isEmpty
  · rw [if_pos hemp] at h
    exact absurd h (by simp)
  · rw [if_neg hemp] at h
    by_cases hrange : ((split_into_snapshots tsf).length : ℤ) ≤
        (if t < 0 then ((split_into_snapshots tsf).length : ℤ) + t else t) ∨
        (if t < 0 then ((split_into_snapshots tsf).length : ℤ) + t else t) < 0
    · rw [if_pos hrange] at h
      exact absurd h (by simp)
    · rw [if_neg hrange] at h
      exact ⟨_, h⟩

theorem reshape_ok_mat3 (numbers : List ℚ) (q : ℤ) (arr : NumArr) (hq : 0 ≤ q)
    (h : reshape_for_particles numbers q 3 = .ok arr) :
    leadingDim arr = q.toNat := by
  unfold reshape_for_particles at h
  rw [if_neg (by omega), if_pos hq] at h
  by_cases hc : (pySliceTake (q * ((3 : ℕ) : ℤ)) numbers).length = q.toNat * 3
  · rw [if_pos hc] at h
    obtain ⟨hlen, -, -⟩ := chunkRows_three_spec q.toNat
      (pySliceTake (q * ((3 : ℕ) : ℤ)) numbers) (by rw [hc]; ring)
    cases h
    simpa [leadingDim] using hlen
  · rw [if_neg hc] at h
    cases h

theorem reshape_ok_vec1 (numbers : List ℚ) (q : ℤ) (arr : NumArr) (hq : 0 ≤ q)
    (h : reshape_for_particles numbers q 1 = .ok arr) :
    leadingDim arr ≤ q.toNat := by
  unfold reshape_for_particles at h
  rw [if_pos rfl] at h
  cases h
  unfold pySliceTake
  rw [if_pos hq]
  simp [leadingDim]

/-- C1 (amended): a Position or Velocity section whose numeric token
sequence is shorter than `particle_count * 3` is rejected with a reshape
error, and any Position or Velocity array the parser returns has leading
dimension exactly `particle_count`; but a Mass section shorter than
`particle_count` is NOT rejected: the Mass branch silently returns the
flat vector of the first `min(particle_count, available)` tokens, so a
parse can succeed with a masses array shorter than the declared count
(never longer); the end-to-end clauses hold for every parse whose
declared count is non-negative (a negative declared count instead
invokes numpy's inferred-row reshape). -/
theorem c1_array_shapes_amended (numbers : List ℚ) (pc : ℕ) :
    (numbers.length < pc * 3 → reshape_for_particles numbers (pc : ℤ) 3 = .error .reshapeErr) ∧
    (∀ arr, reshape_for_particles numbers (pc : ℤ) 3 = .ok arr → leadingDim arr = pc) ∧
    reshape_for_particles numbers (pc : ℤ) 1 = .ok (.vec (numbers.take pc)) ∧
    (numbers.take pc).length = min pc numbers.length ∧
    (∀ tsf t d, parse_converted_falcon_output tsf t = .ok d → 0 ≤ d.particle_count →
      leadingDim d.positions = d.particle_count.toNat ∧
      leadingDim d.velocities = d.particle_count.toNat ∧
      leadingDim d.masses ≤ d.particle_count.toNat) := by
  refine ⟨?_, ?_, ?_, by simp, ?_⟩
  · intro hshort
    unfold reshape_for_particles
    rw [if_neg (by omega), if_pos (Int.natCast_nonneg pc), if_neg]
    intro hlen
    rw [show ((pc : ℤ) * ((3 : ℕ) : ℤ)) = ((pc * 3 : ℕ) : ℤ) from by push_cast; ring,
      pySliceTake_nonneg] at hlen
    rw [List.length_take, Int.toNat_natCast] at hlen
    omega
  · intro arr harr
    have := reshape_ok_mat3 numbers (pc : ℤ) arr (Int.natCast_nonneg pc) harr
    simpa using this
  · unfold reshape_for_particles
    rw [if_pos rfl, pySliceTake_nonneg]
  · intro tsf t d hparse hq
    obtain ⟨s, hs⟩ := parse_ok_exists_block tsf t d hparse
    obtain ⟨⟨np, hnp⟩, ⟨nv, hnv⟩, ⟨nm, hnm⟩⟩ := parse_block_ok_shapes s d hs
    exact ⟨reshape_ok_mat3 np d.particle_count d.positions hq hnp,
      reshape_ok_mat3 nv d.particle_count d.velocities hq hnv,
      reshape_ok_vec1 nm d.particle_count d.masses hq hnm⟩

/-- C1 witness: the amended theorem at two concrete instances: five
tokens declared for two particles are rejected by the Position branch,
and one token declared for two particles passes the Mass branch as a
one-element vector. -/
theorem c1_witness :
    reshape_for_particles [1, 2, 3, 4, 5] ((2 : ℕ) : ℤ) 3 = .error .reshapeErr ∧
    reshape_for_particles [7] ((2 : ℕ) : ℤ) 1 = .ok (.vec (([7] : List ℚ).take 2)) := by
  exact ⟨(c1_array_shapes_amended [1, 2, 3, 4, 5] 2).1 (by norm_num),
    (c1_array_shapes_amended [7] 2).2.2.1⟩

/-- C4 witness: the scenario theorem instantiated at coordinate 0,
master index 3: series A holds the sentinel there. -/
theorem c4_witness :
    interpolate_to_master (create_master_timeline [[0, 1, 2], [0, 2, 4]])
      [0, 1, 2] (fun _ _ _ => 0) 0 3 0 = none :=
  (c4_example_scenario.2.1 0 (by norm_num)).1

theorem simInfoGo_no_nobj : ∀ (lines : List (List Char)) (t? : Option ℚ),
    (∀ line ∈ lines, containsSeq (cs "int Nobj") line = false) →
    ∃ e, simInfoGo lines none t? = .error e := by
  intro lines
  induction lines with
  | nil => exact fun t? _ => ⟨.missingCount, rfl⟩
  | cons line rest ih =>
    intro t? hall
    have h1 : containsSeq (cs "int Nobj") line = false := hall line (by simp)
    have hrest : ∀ l ∈ rest, containsSeq (cs "int Nobj") l = false :=
      fun l hl => hall l (by simp [hl])
    by_cases h2 : containsSeq (cs "double Time") line = true
    · cases hfl : pyFloat? ((pyWords line).getLastD []) with
      | none =>
        refine ⟨.badFloat, ?_⟩
        simp only [simInfoGo, h1, h2, hfl, Bool.false_eq_true, if_false, if_true]
      | some tv =>
        obtain ⟨e, he⟩ := ih (some tv) hrest
        refine ⟨e, ?_⟩
        simp only [simInfoGo, h1, h2, hfl, Bool.false_eq_true, if_false, if_true]
        exact he
    · obtain ⟨e, he⟩ := ih t? hrest
      refine ⟨e, ?_⟩
      simp only [simInfoGo, h1, Bool.false_eq_true, if_false,
        eq_false_of_ne_true h2]
      exact he

theorem simInfoGo_no_time_null : ∀ (lines : List (List Char)) (pc? : Option ℤ),
    (∀ line ∈ lines, containsSeq (cs "double Time") line = false) →
    ∀ c t?, simInfoGo lines pc? none = .ok (c, t?) → t? = none := by
  intro lines
  induction lines with
  | nil =>
    intro pc? _ c t? h
    cases pc? with
    | none => exact absurd h (by simp [simInfoGo])
    | some pc =>
      simp only [simInfoGo] at h
      exact (congrArg Prod.snd (Except.ok.inj h)).symm
  | cons line rest ih =>
    intro pc? hall c t? h
    have h1 : containsSeq (cs "double Time") line = false := hall line (by simp)
    have hrest : ∀ l ∈ rest, containsSeq (cs "double Time") l = false :=
      fun l hl => hall l (by simp [hl])
    by_cases h2 : containsSeq (cs "int Nobj") line = true
    · cases hint : pyInt? ((pyWords line).getLastD []) with
      | none =>
        simp only [simInfoGo, h2, hint, if_true] at h
        exact absurd h (by simp)
      | some n =>
        simp only [simInfoGo, h2, hint, if_true] at h
        exact ih (some n) hrest c t? h
    · simp only [simInfoGo, eq_false_of_ne_true h2, h1, Bool.false_eq_true, if_false] at h
      exact ih pc? hrest c t? h

theorem simInfoGo_no_time_ok : ∀ (lines : List (List Char)) (pc? : Option ℤ),
    (∀ line ∈ lines, containsSeq (cs "double Time") line = false) →
    (∀ line ∈ lines, containsSeq (cs "int Nobj") line = true →
      (pyInt? ((pyWords line).getLastD [])).isSome) →
    (pc?.isSome ∨ ∃ line ∈ lines, containsSeq (cs "int Nobj") line = true) →
    ∃ c, simInfoGo lines pc? none = .ok (c, none) := by
  intro lines
  induction lines with
  | nil =>
    intro pc? _ _ hsome
    cases pc? with
    | none =>
      rcases hsome with h | ⟨l, hl, -⟩
      · simp at h
      · cases hl
    | some pc => exact ⟨pc, rfl⟩
  | cons line rest ih =>
    intro pc? htime hparse hsome
    have h1 : containsSeq (cs "double Time") line = false := htime line (by simp)
    have hrt : ∀ l ∈ rest, containsSeq (cs "double Time") l = false :=
      fun l hl => htime l (by simp [hl])
    have hrp : ∀ l ∈ rest, containsSeq (cs "int Nobj") l = true →
        (pyInt? ((pyWords l).getLastD [])).isSome :=
      fun l hl => hparse l (by simp [hl])
    by_cases h2 : containsSeq (cs "int Nobj") line = true
    · obtain ⟨n, hn⟩ := Option.isSome_iff_exists.mp (hparse line (by simp) h2)
      obtain ⟨c, hc⟩ := ih (some n) hrt hrp (Or.inl rfl)
      refine ⟨c, ?_⟩
      simp only [simInfoGo, h2, hn, if_true]
      exact hc
    · have hsome2 : pc?.isSome = true ∨ ∃ l ∈ rest, containsSeq (cs "int Nobj") l = true := by
        rcases hsome with h | ⟨l, hl, hcl⟩
        · exact Or.inl h
        · rcases List.mem_cons.mp hl with rfl | hmem
          · exact absurd hcl h2
          · exact Or.inr ⟨l, hmem, hcl⟩
      obtain ⟨c, hc⟩ := ih pc? hrt hrp hsome2
      refine ⟨c, ?_⟩
      simp only [simInfoGo, eq_false_of_ne_true h2, h1, Bool.false_eq_true, if_false]
      exact hc

/-- C7: absence of an `int Nobj` declaration line is a fatal parse
error; absence of a `double Time` line is not an error by itself (a
block with a readable count still parses) and leaves the returned time
null; and absence of a declaration line containing
`name[particle_count]` for a named array is a fatal lookup error. -/
theorem c7_declaration_errors (lines : List (List Char)) (array_name : List Char)
    (particle_count : ℤ) :
    ((∀ line ∈ lines, containsSeq (cs "int Nobj") line = false) →
      ∃ e, extract_simulation_info lines = .error e) ∧
    ((∀ line ∈ lines, containsSeq (cs "double Time") line = false) →
      (∀ c t?, extract_simulation_info lines = .ok (c, t?) → t? = none) ∧
      ((∀ line ∈ lines, containsSeq (cs "int Nobj") line = true →
          (pyInt? ((pyWords line).getLastD [])).isSome) →
        (∃ line ∈ lines, containsSeq (cs "int Nobj") line = true) →
        ∃ c, extract_simulation_info lines = .ok (c, none))) ∧
    ((∀ line ∈ lines, containsSeq (arrayPattern array_name particle_count) line = false) →
      find_array_start_line lines array_name particle_count = .error .missingArray) := by
  refine ⟨?_, fun htime => ⟨?_, fun hparse hex => ?_⟩, ?_⟩
  · intro h
    exact simInfoGo_no_nobj lines none h
  · intro c t? h
    exact simInfoGo_no_time_null lines none htime c t? h
  · exact simInfoGo_no_time_ok lines none htime hparse (Or.inr hex)
  · intro h
    unfold find_array_start_line
    have : lines.findIdx? (fun line =>
        containsSeq (arrayPattern array_name particle_count) line) = none := by
      rw [List.findIdx?_eq_none_iff]
      exact h
    rw [this]

/-- C7 witness: the theorem applied to a junk line (missing count is a
fatal error; missing array declaration is a lookup error) and to a
one-line block with a count but no time (parses with a null time). -/
theorem c7_witness :
    (∃ e, extract_simulation_info [cs "zz"] = .error e) ∧
    (∃ c, extract_simulation_info [cs "  int Nobj 4"] = .ok (c, none)) ∧
    find_array_start_line [cs "zz"] (cs "Position") 4 = .error .missingArray := by
  refine ⟨(c7_declaration_errors [cs "zz"] (cs "Position") 4).1 (by decide), ?_, ?_⟩
  · exact ((c7_declaration_errors [cs "  int Nobj 4"] (cs "Position") 4).2.1 (by decide)).2
      (by decide) (by decide)
  · exact (c7_declaration_errors [cs "zz"] (cs "Position") 4).2.2 (by decide)

theorem find_array_error_kind (lines : List (List Char)) (name : List Char) (q : ℤ) (e : PErr)
    (h : find_array_start_line lines name q = .error e) : e = .missingArray := by
  unfold find_array_start_line at h
  cases hf : lines.findIdx? (fun line => containsSeq (arrayPattern name q) line) with
  | none =>
    rw [hf] at h
    exact (Except.error.inj h).symm
  | some i =>
    rw [hf] at h
    exact absurd h (by simp)

theorem reshape_error_kind (numbers : List ℚ) (q : ℤ) (dims : ℕ) (e : PErr)
    (h : reshape_for_particles numbers q dims = .error e) : e = .reshapeErr := by
  unfold reshape_for_particles at h
  by_cases h1 : dims = 1
  · rw [if_pos h1] at h
    exact absurd h (by simp)
  · rw [if_neg h1] at h
    by_cases h2 : 0 ≤ q
    · rw [if_pos h2] at h
      by_cases h3 : (pySliceTake (q * (dims : ℤ)) numbers).length = q.toNat * dims
      · rw [if_pos h3] at h
        exact absurd h (by simp)
      · rw [if_neg h3] at h
        exact (Except.error.inj h).symm
    · rw [if_neg h2] at h
      by_cases h3 : dims ≠ 0 ∧ (pySliceTake (q * (dims : ℤ)) numbers).length % dims = 0
      · rw [if_pos h3] at h
        exact absurd h (by simp)
      · rw [if_neg h3] at h
        exact (Except.error.inj h).symm

theorem simInfoGo_error_kind : ∀ (lines : List (List Char)) (pc? : Option ℤ) (t? : Option ℚ)
    (e : PErr), simInfoGo lines pc? t? = .error e →
    e = .missingCount ∨ e = .badInt ∨ e = .badFloat := by
  intro lines
  induction lines with
  | nil =>
    intro pc? t? e h
    cases pc? with
    | none => exact Or.inl (Except.error.inj h).symm
    | some pc => exact absurd h (by simp [simInfoGo])
  | cons line rest ih =>
    intro pc? t? e h
    by_cases h1 : containsSeq (cs "int Nobj") line = true
    · cases hint : pyInt? ((pyWords line).getLastD []) with
      | none =>
        simp only [simInfoGo, h1, hint, if_true] at h
        exact Or.inr (Or.inl (Except.error.inj h).symm)
      | some n =>
        simp only [simInfoGo, h1, hint, if_true] at h
        exact ih (some n) t? e h
    · by_cases h2 : containsSeq (cs "double Time") line = true
      · cases hfl : pyFloat? ((pyWords line).getLastD []) with
        | none =>
          simp only [simInfoGo, eq_false_of_ne_true h1, h2, hfl,
            Bool.false_eq_true, if_false, if_true] at h
          exact Or.inr (Or.inr (Except.error.inj h).symm)
        | some t =>
          simp only [simInfoGo, eq_false_of_ne_true h1, h2, hfl,
            Bool.false_eq_true, if_false, if_true] at h
          exact ih pc? (some t) e h
      · simp only [simInfoGo, eq_false_of_ne_true h1, eq_false_of_ne_true h2,
          Bool.false_eq_true, if_false] at h
        exact ih pc? t? e h

theorem numbersGo_error_kind : ∀ (ls : List (List Char)) (name : List Char) (e : PErr),
    numbersGo name ls = .error e → e = .stopIteration ∨ e = .badFloat := by
  intro ls
  induction ls with
  | nil => intro name e h; exact absurd h (by simp [numbersGo])
  | cons raw rest ih =>
    intro name e h
    by_cases hstop : should_stop_parsing (pyStrip raw) name = true
    · rw [numbersGo_stop name raw rest hstop] at h
      exact absurd h (by simp)
    · by_cases hcont : containsSeq (name ++ [ '[' ]) (pyStrip raw) = true
      · simp only [numbersGo, eq_false_of_ne_true hstop, hcont,
          Bool.false_eq_true, if_false, if_true] at h
        cases hidx : (pyWords (pyStrip raw)).findIdx? (fun part => part.contains ']') with
        | none =>
          rw [hidx] at h
          exact Or.inl (Except.error.inj h).symm
        | some idx =>
          rw [hidx] at h
          have h2 : (match floatList? ((pyWords (pyStrip raw)).drop (idx + 1)) with
              | none => (Except.error PErr.badFloat : Except PErr (List ℚ))
              | some vs =>
                match numbersGo name rest with
                | Except.error e => Except.error e
                | Except.ok tl => Except.ok (vs ++ tl)) = Except.error e := h
          cases hfl : floatList? ((pyWords (pyStrip raw)).drop (idx + 1)) with
          | none =>
            rw [hfl] at h2
            exact Or.inr (Except.error.inj h2).symm
          | some vs =>
            rw [hfl] at h2
            cases hrec : numbersGo name rest with
            | error e2 =>
              rw [hrec] at h2
              exact (Except.error.inj h2) ▸ ih name e2 hrec
            | ok tl =>
              rw [hrec] at h2
              exact absurd h2 (by simp)
      · by_cases hdata : pyStrip raw ≠ [] ∧ is_header_line (pyStrip raw) = false
        · simp only [numbersGo, eq_false_of_ne_true hstop, eq_false_of_ne_true hcont,
            Bool.false_eq_true, if_false, if_pos hdata] at h
          cases hrec : numbersGo name rest with
          | error e2 =>
            rw [hrec] at h
            exact (Except.error.inj h) ▸ ih name e2 hrec
          | ok tl =>
            rw [hrec] at h
            exact absurd h (by simp)
        · simp only [numbersGo, eq_false_of_ne_true hstop, eq_false_of_ne_true hcont,
            Bool.false_eq_true, if_false, if_neg hdata] at h
          exact ih name e h

theorem extract_array_error_kind (lines : List (List Char)) (name : List Char)
    (q : ℤ) (dims : ℕ) (e : PErr)
    (h : extract_particle_array lines name q dims = .error e) : e.isRange = false := by
  unfold extract_particle_array at h
  cases hf : find_array_start_line lines name q with
  | error e2 =>
    rw [hf] at h
    rw [find_array_error_kind lines name q e2 hf] at h
    rw [← Except.error.inj h]
    rfl
  | ok start =>
    rw [hf] at h
    have h2 : (match extract_numbers_from_section lines start name with
        | Except.error e => (Except.error e : Except PErr NumArr)
        | Except.ok numbers => reshape_for_particles numbers q dims) = Except.error e := h
    cases hn : extract_numbers_from_section lines start name with
    | error e2 =>
      rw [hn] at h2
      rcases numbersGo_error_kind _ name e2 hn with rfl | rfl <;>
        rw [← Except.error.inj h2] <;> rfl
    | ok numbers =>
      rw [hn] at h2
      rw [reshape_error_kind numbers q dims e h2]
      rfl

theorem parse_block_error_kind (selected : List Char) (e : PErr)
    (h : parse_block selected = .error e) : e.isRange = false := by
  unfold parse_block at h
  replace h : (match extract_simulation_info (splitOnChar '\n' selected) with
      | Except.error e => (Except.error e : Except PErr ParsedParticleData)
      | Except.ok info =>
        match extract_particle_array (splitOnChar '\n' selected) (cs "Position") info.1 3 with
        | Except.error e => Except.error e
        | Except.ok positions =>
          match extract_particle_array (splitOnChar '\n' selected) (cs "Velocity") info.1 3 with
          | Except.error e => Except.error e
          | Except.ok velocities =>
            match extract_particle_array (splitOnChar '\n' selected) (cs "Mass") info.1 1 with
            | Except.error e => Except.error e
            | Except.ok masses =>
              Except.ok ⟨positions, velocities, masses, info.2, info.1⟩) = Except.error e := h
  generalize hL : splitOnChar '\n' selected = L at h
  cases hinfo : extract_simulation_info L with
  | error e2 =>
    rw [hinfo] at h
    rcases simInfoGo_error_kind L none none e2 hinfo with rfl | rfl | rfl <;>
      rw [← Except.error.inj h] <;> rfl
  | ok info =>
    rw [hinfo] at h
    have h2 : (match extract_particle_array L (cs "Position") info.1 3 with
        | Except.error e => (Except.error e : Except PErr ParsedParticleData)
        | Except.ok positions =>
          match extract_particle_array L (cs "Velocity") info.1 3 with
          | Except.error e => Except.error e
          | Except.ok velocities =>
            match extract_particle_array L (cs "Mass") info.1 1 with
            | Except.error e => Except.error e
            | Except.ok masses =>
              Except.ok ⟨positions, velocities, masses, info.2, info.1⟩) = Except.error e := h
    cases hp : extract_particle_array L (cs "Position") info.1 3 with
    | error e2 =>
      rw [hp] at h2
      rw [← Except.error.inj h2]
      exact extract_array_error_kind L (cs "Position") info.1 3 e2 hp
    | ok positions =>
      rw [hp] at h2
      have h3 : (match extract_particle_array L (cs "Velocity") info.1 3 with
          | Except.error e => (Except.error e : Except PErr ParsedParticleData)
          | Except.ok velocities =>
            match extract_particle_array L (cs "Mass") info.1 1 with
            | Except.error e => Except.error e
            | Except.ok masses =>
              Except.ok ⟨positions, velocities, masses, info.2, info.1⟩) = Except.error e := h2
      cases hv : extract_particle_array L (cs "Velocity") info.1 3 with
      | error e2 =>
        rw [hv] at h3
        rw [← Except.error.inj h3]
        exact extract_array_error_kind L (cs "Velocity") info.1 3 e2 hv
      | ok velocities =>
        rw [hv] at h3
        have h4 : (match extract_particle_array L (cs "Mass") info.1 1 with
            | Except.error e => (Except.error e : Except PErr ParsedParticleData)
            | Except.ok masses =>
              Except.ok ⟨positions, velocities, masses, info.2, info.1⟩) = Except.error e := h3
        cases hm : extract_particle_array L (cs "Mass") info.1 1 with
        | error e2 =>
          rw [hm] at h4
          rw [← Except.error.inj h4]
          exact extract_array_error_kind L (cs "Mass") info.1 1 e2 hm
        | ok masses =>
          rw [hm] at h4
          exact absurd h4 (by simp)

/-- C5: a non-negative timestep indexes the snapshot list directly and a
negative one counts from the end (so -1 is the last block); the parse
fails with a range-kind error exactly when there are no blocks or the
resolved index falls outside `[0, N)`; in particular, for `N ≥ 1`
blocks, both `parse(text, N)` and `parse(text, -(N+1))` raise the range
error. -/
theorem c5_timestep_range (tsf : List Char) (timestep : ℤ) :
    ((∃ e, parse_converted_falcon_output tsf timestep = .error e ∧ e.isRange = true) ↔
      ((split_into_snapshots tsf).length = 0 ∨
        (if timestep < 0 then ((split_into_snapshots tsf).length : ℤ) + timestep else timestep) < 0 ∨
        ((split_into_snapshots tsf).length : ℤ) ≤
          (if timestep < 0 then ((split_into_snapshots tsf).length : ℤ) + timestep
            else timestep))) ∧
    ((0 : ℤ) ≤ (if timestep < 0 then ((split_into_snapshots tsf).length : ℤ) + timestep
        else timestep) →
      (if timestep < 0 then ((split_into_snapshots tsf).length : ℤ) + timestep else timestep) <
        ((split_into_snapshots tsf).length : ℤ) →
      parse_converted_falcon_output tsf timestep = parse_block ((split_into_snapshots tsf).getD
        (if timestep < 0 then ((split_into_snapshots tsf).length : ℤ) + timestep
          else timestep).toNat [])) ∧
    (1 ≤ (split_into_snapshots tsf).length →
      (∃ e, parse_converted_falcon_output tsf ((split_into_snapshots tsf).length : ℤ) = .error e ∧
        e.isRange = true) ∧
      (∃ e, parse_converted_falcon_output tsf (-(((split_into_snapshots tsf).length : ℤ) + 1)) =
        .error e ∧ e.isRange = true)) := by
  have hev : ∀ t : ℤ, parse_converted_falcon_output tsf t =
      (if (split_into_snapshots tsf).isEmpty then .error .noSnapshots
      else if ((split_into_snapshots tsf).length : ℤ) ≤
            (if t < 0 then ((split_into_snapshots tsf).length : ℤ) + t else t) ∨
          (if t < 0 then ((split_into_snapshots tsf).length : ℤ) + t else t) < 0 then
        .error .badTimestep
      else parse_block ((split_into_snapshots tsf).getD
        (if t < 0 then ((split_into_snapshots tsf).length : ℤ) + t else t).toNat [])) :=
    fun t => rfl
  have hempiff : (split_into_snapshots tsf).isEmpty = true ↔
      (split_into_snapshots tsf).length = 0 := by
    rw [List.isEmpty_iff, List.length_eq_zero]
  refine ⟨⟨?_, ?_⟩, ?_, ?_⟩
  · rintro ⟨e, he, hr⟩
    by_contra hcon
    push_neg at hcon
    obtain ⟨hN, hlow, hhigh⟩ := hcon
    rw [hev timestep, if_neg (fun hc => hN (hempiff.mp hc)),
      if_neg (by push_neg; exact ⟨hhigh, hlow⟩)] at he
    rw [parse_block_error_kind _ _ he] at hr
    exact absurd hr (by simp)
  · intro hcase
    by_cases hN : (split_into_snapshots tsf).length = 0
    · exact ⟨.noSnapshots, by rw [hev timestep, if_pos (hempiff.mpr hN)], rfl⟩
    · rcases hcase with h | h | h
      · exact absurd h hN
      · exact ⟨.badTimestep, by
          rw [hev timestep, if_neg (fun hc => hN (hempiff.mp hc)), if_pos (Or.inr h)], rfl⟩
      · exact ⟨.badTimestep, by
          rw [hev timestep, if_neg (fun hc => hN (hempiff.mp hc)), if_pos (Or.inl h)], rfl⟩
  · intro h0 hlt
    have hN : (split_into_snapshots tsf).length ≠ 0 := by
      intro hc
      rw [hc] at hlt
      omega
    rw [hev timestep, if_neg (fun hc => hN (hempiff.mp hc)),
      if_neg (by push_neg; exact ⟨hlt, h0⟩)]
  · intro hN1
    have hemp : (split_into_snapshots tsf).isEmpty ≠ true := fun hc => by
      have := hempiff.mp hc
      omega
    constructor
    · refine ⟨.badTimestep, ?_, rfl⟩
      rw [hev ((split_into_snapshots tsf).length : ℤ), if_neg hemp,
        if_neg (by omega : ¬ (((split_into_snapshots tsf).length : ℤ) < 0))]
      rw [if_pos (Or.inl (le_refl _))]
    · refine ⟨.badTimestep, ?_, rfl⟩
      rw [hev (-(((split_into_snapshots tsf).length : ℤ) + 1)), if_neg hemp,
        if_pos (by omega : -(((split_into_snapshots tsf).length : ℤ) + 1) < 0)]
      rw [if_pos (by omega : ((split_into_snapshots tsf).length : ℤ) ≤
        ((split_into_snapshots tsf).length : ℤ) + -(((split_into_snapshots tsf).length : ℤ) + 1) ∨
        ((split_into_snapshots tsf).length : ℤ) + -(((split_into_snapshots tsf).length : ℤ) + 1) < 0)]

/-- C5 witness: a text with two snapshot blocks: indices 2 and -3 both
raise the range error. -/
theorem c5_witness :
    (∃ e, parse_converted_falcon_output (cs "xxset SnapShotAset SnapShotB") 2 = .error e ∧
      e.isRange = true) ∧
    (∃ e, parse_converted_falcon_output (cs "xxset SnapShotAset SnapShotB") (-3) = .error e ∧
      e.isRange = true) :=
  (c5_timestep_range (cs "xxset SnapShotAset SnapShotB") 0).2.2 (by decide)

theorem specStop_eq_should_stop (l name : List Char) :
    specStopLine l name = should_stop_parsing l name := rfl

theorem floatList_of_all_some : ∀ (l : List (List Char)),
    (∀ t ∈ l, (pyFloat? t).isSome) →
    floatList? l = some (l.filterMap pyFloat?) := by
  intro l
  induction l with
  | nil => intro _; rfl
  | cons t rest ih =>
    intro hall
    obtain ⟨v, hv⟩ := Option.isSome_iff_exists.mp (hall t (by simp))
    rw [List.filterMap_cons]
    simp only [floatList?, hv, ih (fun x hx => hall x (by simp [hx]))]

theorem numbersGo_plain : ∀ (rest : List (List Char)) (array_name : List Char),
    (∀ l ∈ (rest.map pyStrip).takeWhile (fun l => !(specStopLine l array_name)),
      containsSeq (array_name ++ [ '[' ]) l = false ∧ is_header_line l = false) →
    numbersGo array_name rest =
      .ok (((rest.map pyStrip).takeWhile (fun l => !(specStopLine l array_name))).foldr
        (fun l acc => (pyWords (removeDots l)).filterMap pyFloat? ++ acc) []) := by
  intro rest
  induction rest with
  | nil => intro _ _; rfl
  | cons r rs ih =>
    intro array_name hbody
    by_cases hstop : should_stop_parsing (pyStrip r) array_name = true
    · rw [numbersGo_stop array_name r rs hstop]
      rw [List.map_cons, List.takeWhile_cons]
      rw [specStop_eq_should_stop, hstop]
      simp
    · have hmem : pyStrip r ∈ (((r :: rs).map pyStrip).takeWhile
          (fun l => !(specStopLine l array_name))) := by
        rw [List.map_cons, List.takeWhile_cons, specStop_eq_should_stop,
          eq_false_of_ne_true hstop]
        simp
      obtain ⟨hc, hh⟩ := hbody (pyStrip r) hmem
      have hbody2 : ∀ l ∈ (rs.map pyStrip).takeWhile (fun l => !(specStopLine l array_name)),
          containsSeq (array_name ++ [ '[' ]) l = false ∧ is_header_line l = false := by
        intro l hl
        refine hbody l ?_
        rw [List.map_cons, List.takeWhile_cons, specStop_eq_should_stop,
          eq_false_of_ne_true hstop]
        simpa using Or.inr hl
      have htake : (((r :: rs).map pyStrip).takeWhile (fun l => !(specStopLine l array_name))) =
          pyStrip r :: ((rs.map pyStrip).takeWhile (fun l => !(specStopLine l array_name))) := by
        rw [List.map_cons, List.takeWhile_cons, specStop_eq_should_stop,
          eq_false_of_ne_true hstop]
        simp
      rw [htake, List.foldr_cons]
      by_cases hempty : pyStrip r = []
      · simp only [numbersGo, eq_false_of_ne_true hstop, hc, Bool.false_eq_true, if_false]
        rw [if_neg (by rw [hempty]; simp)]
        rw [ih array_name hbody2, hempty]
        simp [removeDots, removeDotsGo, pyWords, pyWordsAux]
      · simp only [numbersGo, eq_false_of_ne_true hstop, hc, Bool.false_eq_true, if_false]
        rw [if_pos ⟨hempty, hh⟩]
        rw [ih array_name hbody2]

/-- C8: with a well-formed declaration line (a bracketed token exists and
the tokens after it are numeric) and a body free of further declarations
or header-style lines before the stop line, the accumulated numeric
sequence of a section is exactly: the declaration-line tokens after the
closing bracket, then every numeric token of the following stripped
lines (continuation markers removed, non-numeric tokens skipped) up to
the first end-of-block marker or foreign type-declaration line - the
spec-side description `section_numbers_spec`. -/
theorem c8_section_numbers (lines : List (List Char)) (start_line : ℕ)
    (array_name decl : List Char) (rest : List (List Char)) (idx : ℕ)
    (hdrop : lines.drop start_line = decl :: rest)
    (hstop : should_stop_parsing (pyStrip decl) array_name = false)
    (hcont : containsSeq (array_name ++ [ '[' ]) (pyStrip decl) = true)
    (hidx : (pyWords (pyStrip decl)).findIdx? (fun part => part.contains ']') = some idx)
    (hdecl : ∀ tok ∈ (pyWords (pyStrip decl)).drop (idx + 1), (pyFloat? tok).isSome)
    (hbody : ∀ l ∈ (rest.map pyStrip).takeWhile (fun l => !(specStopLine l array_name)),
      containsSeq (array_name ++ [ '[' ]) l = false ∧ is_header_line l = false) :
    extract_numbers_from_section lines start_line array_name =
      .ok (section_numbers_spec lines start_line array_name) := by
  have hspec : section_numbers_spec lines start_line array_name =
      ((pyWords (pyStrip decl)).drop
        (((pyWords (pyStrip decl)).findIdx? (fun part => part.contains ']')).getD
          (pyWords (pyStrip decl)).length + 1)).filterMap pyFloat? ++
      ((rest.map pyStrip).takeWhile (fun l => !(specStopLine l array_name))).foldr
        (fun l acc => (pyWords (removeDots l)).filterMap pyFloat? ++ acc) [] := by
    unfold section_numbers_spec
    rw [hdrop]
  rw [hspec, hidx]
  unfold extract_numbers_from_section
  rw [hdrop]
  simp only [numbersGo, hstop, hcont, hidx, Bool.false_eq_true, if_false, if_true]
  rw [floatList_of_all_some _ hdecl]
  rw [numbersGo_plain rest array_name hbody]
  simp

set_option maxRecDepth 40000 in
/-- C8 witness: a concrete Position section with tokens on the
declaration line, a continuation marker, and a stray annotation token:
the extractor returns exactly the spec-side numeric sequence. -/
theorem c8_witness :
    extract_numbers_from_section [cs "float Position[2] 1.0 2.0", cs "3.0 . . . x 4.0",
      cs "5.0 6.0", cs "tes"] 0 (cs "Position") = .ok [1, 2, 3, 4, 5, 6] := by
  have t1 : pyFloat? (cs "1.0") = some 1 := by
    rw [show cs "1.0" = ['1', '.', '0'] from rfl, pyFloat_digit0 '1' (by decide)]
    norm_num [show ('1'.toNat - 48 : ℕ) = 1 from rfl]
  have t2 : pyFloat? (cs "2.0") = some 2 := by
    rw [show cs "2.0" = ['2', '.', '0'] from rfl, pyFloat_digit0 '2' (by decide)]
    norm_num [show ('2'.toNat - 48 : ℕ) = 2 from rfl]
  have t3 : pyFloat? (cs "3.0") = some 3 := by
    rw [show cs "3.0" = ['3', '.', '0'] from rfl, pyFloat_digit0 '3' (by decide)]
    norm_num [show ('3'.toNat - 48 : ℕ) = 3 from rfl]
  have t4 : pyFloat? (cs "4.0") = some 4 := by
    rw [show cs "4.0" = ['4', '.', '0'] from rfl, pyFloat_digit0 '4' (by decide)]
    norm_num [show ('4'.toNat - 48 : ℕ) = 4 from rfl]
  have t5 : pyFloat? (cs "5.0") = some 5 := by
    rw [show cs "5.0" = ['5', '.', '0'] from rfl, pyFloat_digit0 '5' (by decide)]
    norm_num [show ('5'.toNat - 48 : ℕ) = 5 from rfl]
  have t6 : pyFloat? (cs "6.0") = some 6 := by
    rw [show cs "6.0" = ['6', '.', '0'] from rfl, pyFloat_digit0 '6' (by decide)]
    norm_num [show ('6'.toNat - 48 : ℕ) = 6 from rfl]
  have tx : pyFloat? (cs "x") = none := by decide
  have h := c8_section_numbers [cs "float Position[2] 1.0 2.0", cs "3.0 . . . x 4.0",
      cs "5.0 6.0", cs "tes"] 0 (cs "Position") (cs "float Position[2] 1.0 2.0")
      [cs "3.0 . . . x 4.0", cs "5.0 6.0", cs "tes"] 1
      rfl (by decide) (by decide) (by decide)
      (by
        intro tok htok
        rw [show (pyWords (pyStrip (cs "float Position[2] 1.0 2.0"))).drop 2 =
          [cs "1.0", cs "2.0"] from by decide] at htok
        simp only [List.mem_cons, List.not_mem_nil, or_false] at htok
        rcases htok with rfl | rfl
        · rw [t1]; rfl
        · rw [t2]; rfl)
      (by decide)
  rw [h]
  have hspec : section_numbers_spec [cs "float Position[2] 1.0 2.0", cs "3.0 . . . x 4.0",
      cs "5.0 6.0", cs "tes"] 0 (cs "Position") = [1, 2, 3, 4, 5, 6] := by
    unfold section_numbers_spec
    show ((pyWords (pyStrip (cs "float Position[2] 1.0 2.0"))).drop
        (((pyWords (pyStrip (cs "float Position[2] 1.0 2.0"))).findIdx?
          (fun part => part.contains ']')).getD
            (pyWords (pyStrip (cs "float Position[2] 1.0 2.0"))).length + 1)).filterMap
        pyFloat? ++
      ((([cs "3.0 . . . x 4.0", cs "5.0 6.0", cs "tes"] : List (List Char)).map
        pyStrip).takeWhile (fun l => !(specStopLine l (cs "Position")))).foldr
        (fun l acc => (pyWords (removeDots l)).filterMap pyFloat? ++ acc) [] =
      [1, 2, 3, 4, 5, 6]
    rw [show pyWords (pyStrip (cs "float Position[2] 1.0 2.0")) =
      [cs "float", cs "Position[2]", cs "1.0", cs "2.0"] from by decide]
    rw [show ([cs "float", cs "Position[2]", cs "1.0", cs "2.0"] : List (List Char)).findIdx?
      (fun part => part.contains ']') = some 1 from by decide]
    rw [show (([cs "3.0 . . . x 4.0", cs "5.0 6.0", cs "tes"] : List (List Char)).map
      pyStrip).takeWhile (fun l => !(specStopLine l (cs "Position"))) =
      [cs "3.0 . . . x 4.0", cs "5.0 6.0"] from by decide]
    simp only [Option.getD_some, List.foldr_cons, List.foldr_nil]
    rw [show removeDots (cs "3.0 . . . x 4.0") = cs "3.0  x 4.0" from by decide]
    rw [show removeDots (cs "5.0 6.0") = cs "5.0 6.0" from by decide]
    rw [show pyWords (cs "3.0  x 4.0") = [cs "3.0", cs "x", cs "4.0"] from by decide]
    rw [show pyWords (cs "5.0 6.0") = [cs "5.0", cs "6.0"] from by decide]
    simp only [List.drop_succ_cons, List.drop_zero, List.filterMap_cons, List.filterMap_nil,
      t1, t2, t3, t4, t5, t6, tx]
    simp
  rw [hspec]
